import Mathlib

/-!
Verification development for the invoice-extraction engine
(`parse.py` and `custom_parsers.py`).

The Python sources are shallowly embedded: pure string processing is
modelled over `List Char`, Python `int` over `Int`, and Python
`float` / `Decimal` values over the exact scaled-decimal type `Dec`
(every numeral occurring in an invoice is a finite decimal, and at
invoice magnitudes both `float` conversion of such numerals and
`Decimal` arithmetic at its default 28-digit precision are exact, so
`Dec` represents the computed values faithfully).  `Dec.toRat` maps a
stored value to the rational it denotes; the specification-level
arithmetic facts are stated through it.  Fallible conversions are
modelled with `Option`.

Python regular expressions used by the scanners are `re.match` patterns
whose pieces are separated by `\s+`; each is embedded as a deterministic
matcher over whitespace-separated tokens, derived from the backtracking
semantics of the original pattern and documented at its definition
site.

Modelling conventions, used throughout:
* `\s` is the ASCII whitespace class (space, tab, newline, carriage
  return, vertical tab, form feed); invoice text contains no other
  whitespace.
* `str.lower` is ASCII case folding; vendor trigger phrases are ASCII.
* `float(...)` is modelled for the usual decimal literals
  (sign, digits, dot, exponent); the exotic inputs `inf`, `nan` and
  underscore separators do not occur in invoice cells and are mapped to
  `none`.
-/

/-- ASCII whitespace, the characters matched by Python `\s` on the
invoice texts handled here. -/
def isWsCh (c : Char) : Bool :=
  c = ' ' || c = '\t' || c = '\n' || c = '\r' || c = '\x0b' || c = '\x0c'

/-- ASCII decimal digit. -/
def isDigitCh (c : Char) : Bool :=
  '0' ≤ c && c ≤ '9'

/-- ASCII lowercase letter. -/
def isLowerCh (c : Char) : Bool :=
  'a' ≤ c && c ≤ 'z'

/-- ASCII uppercase letter. -/
def isUpperCh (c : Char) : Bool :=
  'A' ≤ c && c ≤ 'Z'

/-- Word character, Python `\w` restricted to ASCII. -/
def isWordCh (c : Char) : Bool :=
  isDigitCh c || isLowerCh c || isUpperCh c || c = '_'

/-- ASCII case folding of one character (model of `str.lower`). -/
def lowCh (c : Char) : Char :=
  if isUpperCh c then Char.ofNat (c.toNat + 32) else c

/-- ASCII case folding of a string. -/
def lowStr (s : String) : String :=
  ⟨s.data.map lowCh⟩

/-- Python `str.strip()` on a character list. -/
def stripCh (cs : List Char) : List Char :=
  ((cs.dropWhile isWsCh).reverse.dropWhile isWsCh).reverse

/-- Python `str.strip()`. -/
def pstrip (s : String) : String :=
  ⟨stripCh s.data⟩

/-- Does `n` occur as a prefix of `h`?  Helper for substring search. -/
def prefixOfCh : List Char → List Char → Bool
  | [], _ => true
  | _ :: _, [] => false
  | a :: as, b :: bs => a = b && prefixOfCh as bs

/-- Does `n` occur as a contiguous substring of `h`?
Model of Python `n in h`. -/
def subCh (n : List Char) : List Char → Bool
  | [] => prefixOfCh n []
  | b :: bs => prefixOfCh n (b :: bs) || subCh n bs

/-- Python `needle in hay` on strings. -/
def containsSub (needle hay : String) : Bool :=
  subCh needle.data hay.data

/-- Python `hay.startswith(needle)` (the anchored `re.match` literals
used by the scanners reduce to this). -/
def startsWithSub (needle hay : String) : Bool :=
  prefixOfCh needle.data hay.data

/-- Split a character list at every occurrence of `sep`
(model of `str.split(sep)` for a one-character separator, as used with
`text.split("\n")` and `item_num.split("/")`). -/
def splitOnCh (sep : Char) : List Char → List (List Char)
  | [] => [[]]
  | c :: cs =>
    let r := splitOnCh sep cs
    if c = sep then [] :: r
    else match r with
      | [] => [[c]]
      | w :: ws => (c :: w) :: ws

/-- The whitespace-separated tokens of a character list
(model of `str.split()` with no argument). -/
def wsTokens : List Char → List (List Char)
  | [] => []
  | c :: cs =>
    if isWsCh c then wsTokens cs
    else match wsTokens cs with
      | [] => [[c]]
      | w :: ws =>
        match cs with
        | [] => [[c]]
        | d :: _ => if isWsCh d then [c] :: w :: ws else (c :: w) :: ws

/-- Python `" ".join(s.split())`: collapse every whitespace run to a
single space and drop outer whitespace. -/
def joinSplitWs (s : String) : String :=
  ⟨(wsTokens s.data).foldr
    (fun w acc => if acc.isEmpty then w else w ++ ' ' :: acc) []⟩

/-- Numeric value of a digit character. -/
def digitVal (c : Char) : Nat :=
  c.toNat - '0'.toNat

/-- Value of a digit string. -/
def natOfDigits (cs : List Char) : Nat :=
  cs.foldl (fun acc c => 10 * acc + digitVal c) 0

/-- An exact scaled decimal: the value `m / 10 ^ k`.  This represents
the Python `float` / `Decimal` values computed by the parsers; see the
module comment. -/
structure Dec where
  m : Int
  k : Nat
deriving DecidableEq

/-- The rational denoted by a scaled decimal. -/
def Dec.toRat (d : Dec) : ℚ :=
  (d.m : ℚ) / (10 : ℚ) ^ d.k

/-- Exact product of scaled decimals. -/
def Dec.mul (a b : Dec) : Dec :=
  ⟨a.m * b.m, a.k + b.k⟩

/-- Exact difference of scaled decimals. -/
def Dec.sub (a b : Dec) : Dec :=
  ⟨a.m * (10 : ℤ) ^ (max a.k b.k - a.k) - b.m * (10 : ℤ) ^ (max a.k b.k - b.k),
   max a.k b.k⟩

/-- Exact division of a scaled decimal by `10 ^ n`. -/
def Dec.shr (a : Dec) (n : Nat) : Dec :=
  ⟨a.m, a.k + n⟩

/-- Negation of a scaled decimal. -/
def Dec.neg (a : Dec) : Dec :=
  ⟨-a.m, a.k⟩

/-- Is the denoted value zero?  (Model of `x == 0` on a float.) -/
def Dec.isZero (a : Dec) : Bool :=
  a.m = 0

/-- Truncation toward zero, the behaviour of Python `int(...)` on a
float. -/
def Dec.trunc (a : Dec) : Int :=
  Int.tdiv a.m ((10 : ℤ) ^ a.k)

/-- Does the scaled decimal denote an integer?
(Model of `x == int(x)` on a float.) -/
def Dec.isIntegral (a : Dec) : Bool :=
  Int.emod a.m ((10 : ℤ) ^ a.k) = 0

/-- Half-up rounding of a scaled decimal to 2 decimal places, the
behaviour of `Decimal.quantize(Decimal("0.01"), rounding=ROUND_HALF_UP)`
(ties away from zero).  When the value already has at most 2 decimal
places the result is exact. -/
def Dec.quantHalfUp2 (a : Dec) : Dec :=
  if a.k ≤ 2 then ⟨a.m * (10 : ℤ) ^ (2 - a.k), 2⟩
  else
    let h : Int := (10 : ℤ) ^ (a.k - 2)
    if 0 ≤ a.m then ⟨Int.fdiv (a.m + Int.tdiv h 2) h, 2⟩
    else ⟨-Int.fdiv (-a.m + Int.tdiv h 2) h, 2⟩

/-- Half-up rounding to 2 decimal places on rationals (ties away from
zero): the specification's `round_half_up(x, 2 decimal places)`. -/
def round_half_up (q : ℚ) : ℚ :=
  if 0 ≤ q then ((⌊q * 100 + 1 / 2⌋ : ℤ) : ℚ) / 100
  else -(((⌊-q * 100 + 1 / 2⌋ : ℤ) : ℚ) / 100)

/-- Scaled decimal of the numeral `intPart.fracPart`
(both parts are digit strings). -/
def decOfParts (intPart fracPart : List Char) : Dec :=
  ⟨(natOfDigits (intPart ++ fracPart) : ℤ), fracPart.length⟩

/-- Apply a decimal exponent to a scaled decimal
(for the `e`/`E` suffix of a float literal). -/
def Dec.scaleExp (a : Dec) (e : Int) : Dec :=
  if 0 ≤ e then
    if e.toNat ≤ a.k then ⟨a.m, a.k - e.toNat⟩
    else ⟨a.m * (10 : ℤ) ^ (e.toNat - a.k), 0⟩
  else ⟨a.m, a.k + (-e).toNat⟩

/-- Exponent suffix of a Python float literal: empty, or
`[eE][+-]?digits`.  Returns the mantissa scaled accordingly. -/
def pyFloatExp (m : Dec) : List Char → Option Dec
  | [] => some m
  | e :: rest =>
    if e = 'e' ∨ e = 'E' then
      match rest with
      | '+' :: ds =>
        if ds ≠ [] ∧ ds.all isDigitCh then some (m.scaleExp (natOfDigits ds)) else none
      | '-' :: ds =>
        if ds ≠ [] ∧ ds.all isDigitCh then some (m.scaleExp (-(natOfDigits ds : ℤ))) else none
      | ds =>
        if ds ≠ [] ∧ ds.all isDigitCh then some (m.scaleExp (natOfDigits ds)) else none
    else none

/-- Unsigned part of a Python float literal:
`digits [. digits] [exp]` or `. digits [exp]`. -/
def pyFloatMag (cs : List Char) : Option Dec :=
  let a := cs.takeWhile isDigitCh
  let r1 := cs.drop a.length
  match r1 with
  | '.' :: r2 =>
    let b := r2.takeWhile isDigitCh
    let r3 := r2.drop b.length
    if a = [] ∧ b = [] then none else pyFloatExp (decOfParts a b) r3
  | _ => if a = [] then none else pyFloatExp ⟨(natOfDigits a : ℤ), 0⟩ r1

/-- Model of Python `float(s)` for decimal literals: optional
surrounding whitespace, optional sign, digits with optional dot and
exponent.  (`inf`, `nan` and underscore separators are mapped to
`none`; they do not occur in invoice cells.) -/
def pyFloat (s : String) : Option Dec :=
  match stripCh s.data with
  | '+' :: rest => pyFloatMag rest
  | '-' :: rest => (pyFloatMag rest).map Dec.neg
  | rest => pyFloatMag rest

/-- A Python number as stored in a line-item dictionary: `int` and
`float` are distinct Python types, and the Avanti scanner can store
either in the quantity field. -/
inductive PyNum where
  | int (z : Int)
  | float (d : Dec)
deriving DecidableEq

/-- Numeric value of a stored Python number. -/
def PyNum.val : PyNum → ℚ
  | .int z => (z : ℚ)
  | .float d => d.toRat

/-- Is the stored Python number an `int`? -/
def PyNum.isInt : PyNum → Bool
  | .int _ => true
  | .float _ => false

/-- The canonical line-item record (one Python dict appended to the
output list).  `backorder` is present only for the vendors whose layout
exposes a back-order column. -/
structure LineItem where
  quantity : PyNum
  backorder : Option Int := none
  item_number : String
  sku : String
  product_description : String
  unit_price : Option Dec
  total_amount : Option Dec
deriving DecidableEq

/-! ### CID reference decoding (`decode_cid_references` in `parse.py`) -/

/-- The fixed CID code to character table of `decode_cid_references`
(keys are the digit strings of the Python dict; the `192` entry keeps
the two characters that literally appear in the source file). -/
def cidTable : List (String × String) :=
  [("34", "\""), ("35", "#"), ("43", "+"), ("44", ","), ("45", "-"),
   ("47", "/"), ("48", "0"), ("49", "1"), ("50", "2"), ("51", "3"),
   ("52", "4"), ("53", "5"), ("54", "6"), ("55", "7"), ("56", "8"),
   ("57", "9"), ("58", ":"), ("65", "A"), ("66", "B"), ("67", "C"),
   ("68", "D"), ("69", "E"), ("70", "F"), ("71", "G"), ("72", "H"),
   ("73", "I"), ("74", "J"), ("75", "K"), ("76", "L"), ("77", "M"),
   ("78", "N"), ("79", "O"), ("80", "P"), ("81", "Q"), ("82", "R"),
   ("83", "S"), ("84", "T"), ("85", "U"), ("86", "V"), ("87", "W"),
   ("88", "X"), ("89", "Y"), ("90", "Z"), ("97", "a"), ("98", "b"),
   ("99", "c"), ("100", "d"), ("101", "e"), ("102", "f"), ("103", "g"),
   ("104", "h"), ("105", "i"), ("106", "j"), ("107", "k"), ("108", "l"),
   ("109", "m"), ("110", "n"), ("111", "o"), ("112", "p"), ("113", "q"),
   ("114", "r"), ("115", "s"), ("116", "t"), ("117", "u"), ("118", "v"),
   ("119", "w"), ("120", "x"), ("121", "y"), ("122", "z"),
   ("192", "Ã€")]

/-- Table lookup for a captured CID digit string. -/
def cidVal (s : String) : Option String :=
  (cidTable.find? (fun e => e.1 = s)).map (fun e => e.2)

/-- Left-to-right, non-overlapping replacement of `(cid:NNN)` markers,
the `re.sub(r"\(cid:(\d+)\)", ...)` scan: at each position the marker
pattern is tried; on a match the replacement (or, for an unknown code,
the matched text itself) is emitted and scanning resumes after the
marker, otherwise one character is emitted and scanning advances by
one.  `fuel` bounds the recursion; it is instantiated with the input
length, which suffices because each step consumes at least one
character. -/
def decodeCidGo : Nat → List Char → List Char
  | 0, cs => cs
  | _ + 1, [] => []
  | fuel + 1, c :: rest =>
    if c = '(' ∧ prefixOfCh "cid:".data rest then
      let afterColon := rest.drop 4
      let ds := afterColon.takeWhile isDigitCh
      let after := afterColon.drop ds.length
      match ds, after with
      | _ :: _, ')' :: rest2 =>
        (match cidVal ⟨ds⟩ with
         | some rep => rep.data ++ decodeCidGo fuel rest2
         | none => '(' :: 'c' :: 'i' :: 'd' :: ':' :: (ds ++ ')' :: decodeCidGo fuel rest2))
      | _, _ => c :: decodeCidGo fuel rest
    else c :: decodeCidGo fuel rest

/-- Model of `decode_cid_references`: returns the text unchanged when it
is empty or contains no `(cid:` marker, otherwise decodes every marker
with a known code. -/
def decode_cid_references (s : String) : String :=
  if containsSub "(cid:" s then ⟨decodeCidGo s.data.length s.data⟩ else s

/-! ### The generic fallback parser (`InvoiceParser` in `parse.py`) -/

/-- A table cell as delivered by the page token provider
(`None` or a string). -/
abbrev Cell := Option String

/-- One table row. -/
abbrev Row := List Cell

/-- One extracted table. -/
abbrev Table := List Row

/-- Python truthiness of an optional string. -/
def pyTruthyO : Option String → Bool
  | some s => s ≠ ""
  | none => false

/-- Remove every `$` (model of `.replace("$", "")`). -/
def remDollar (s : String) : String :=
  ⟨s.data.filter (fun c => c ≠ '$')⟩

/-- Remove every `,` (model of `.replace(",", "")`). -/
def remComma (s : String) : String :=
  ⟨s.data.filter (fun c => c ≠ ',')⟩

/-- The header-to-cell dictionary built at the top of
`_parse_line_item_row`: one entry per truthy header whose index is
within the row, keyed by the lowercased, stripped header text.  Entries
are kept in insertion order; a later duplicate key overwrites an
earlier one, which `dictGet` models by taking the last match. -/
def rowEntries (headers row : Row) : List (String × Cell) :=
  headers.enum.filterMap (fun p =>
    match p.2 with
    | some h => if h ≠ "" ∧ p.1 < row.length
        then some (pstrip (lowStr h), row.getD p.1 none) else none
    | none => none)

/-- Dictionary lookup (last write wins, as in a Python dict built by
repeated assignment). -/
def dictGet (es : List (String × Cell)) (k : String) : Option Cell :=
  es.foldl (fun acc e => if e.1 = k then some e.2 else acc) none

/-- The guard `key in row_dict and row_dict[key]` followed by use of the
cell: returns the cell only when the key is present and its value is
truthy. -/
def getTruthy (es : List (String × Cell)) (k : String) : Option String :=
  match dictGet es k with
  | some (some s) => if s = "" then none else some s
  | _ => none

/-- Key-by-key loop of `_extract_quantity`: the first key whose cell is
truthy, strips to a non-empty string and converts via `int(float(...))`
yields the quantity; a conversion failure falls through to the next
key. -/
def extractQuantityGo (es : List (String × Cell)) : List String → Option Int
  | [] => none
  | k :: ks =>
    match getTruthy es k with
    | some v =>
      let vs := pstrip v
      if vs ≠ "" then
        match pyFloat vs with
        | some d => some d.trunc
        | none => extractQuantityGo es ks
      else extractQuantityGo es ks
    | none => extractQuantityGo es ks

/-- Model of `_extract_quantity` with its fixed key list. -/
def extract_quantity (es : List (String × Cell)) : Option Int :=
  extractQuantityGo es ["qty", "quantity", "qnty", "shipped", "ordered"]

/-- Key-by-key loop of `_extract_field`: the first key whose cell is
truthy and, after CID decoding and whitespace normalization, is
non-empty and not a `none`/`null` placeholder yields the field. -/
def extractFieldGo (es : List (String × Cell)) : List String → Option String
  | [] => none
  | k :: ks =>
    match getTruthy es k with
    | some v =>
      let w := joinSplitWs (decode_cid_references (pstrip v))
      if w ≠ "" ∧ lowStr w ≠ "none" ∧ lowStr w ≠ "null" then some w
      else extractFieldGo es ks
    | none => extractFieldGo es ks

/-- Key-by-key loop of `_extract_price`: the first key whose cell is
truthy and, after CID decoding and removal of `$`, `,` and outer
whitespace, is non-empty and converts via `float(...)` yields the
price; a conversion failure falls through to the next key. -/
def extractPriceGo (es : List (String × Cell)) : List String → Option Dec
  | [] => none
  | k :: ks =>
    match getTruthy es k with
    | some v =>
      let u := remComma (remDollar (pstrip (decode_cid_references v)))
      if u ≠ "" then
        match pyFloat u with
        | some d => some d
        | none => extractPriceGo es ks
      else extractPriceGo es ks
    | none => extractPriceGo es ks

/-- Model of `_extract_first_item_number`: when the identifier contains
a `/`, keep only the first segment, stripped. -/
def extract_first_item_number (s : String) : String :=
  if s = "" then s
  else
    let parts := splitOnCh '/' s.data
    if parts.length > 1 then ⟨stripCh (parts.headD [])⟩ else s

/-- The identifier/SKU substitution of `_parse_line_item_row`: a missing
identifier is replaced by the SKU and vice versa. -/
def substIds (item0 sku0 : Option String) : Option String × Option String :=
  if ¬pyTruthyO item0 ∧ pyTruthyO sku0 then (sku0, sku0)
  else if ¬pyTruthyO sku0 ∧ pyTruthyO item0 then (item0, item0)
  else (item0, sku0)

/-- Model of `_parse_line_item_row`: reject short rows, build the
header dictionary, extract the quantity (rejecting rows without one and
zero-quantity rows when so configured), extract the identifier,
SKU, description and price fields, substitute a missing identifier or
SKU by the other, and emit the record only when identifier, SKU and
description are all truthy. -/
def parse_line_item_row (row headers : Row) (includeZeroQty : Bool) :
    Option LineItem :=
  if row.length < 4 then none
  else
    let es := rowEntries headers row
    match extract_quantity es with
    | none => none
    | some qty =>
      if ¬includeZeroQty ∧ qty = 0 then none
      else
        let item0 := (extractFieldGo es
          ["item#", "item #", "item", "item_number", "itemnumber",
           "item no", "item no."]).map extract_first_item_number
        let sku0 := extractFieldGo es ["sku", "item_code", "item code"]
        let product := extractFieldGo es
          ["product", "description", "item_description", "item description"]
        let unit := extractPriceGo es
          ["price", "unit_price", "unit price", "price each"]
        let total := extractPriceGo es
          ["amount", "total", "total_amount", "line_total"]
        let pair := substIds item0 sku0
        if pyTruthyO pair.1 ∧ pyTruthyO pair.2 ∧ pyTruthyO product then
          some ⟨.int qty, none, pair.1.getD "", pair.2.getD "",
                product.getD "", unit, total⟩
        else none

/-- The indicator list of `_is_line_items_table`, exactly as in the
source. -/
def codeIndicators : List String :=
  ["qty", "quantity", "item", "sku", "product", "price", "amount", "total"]

/-- The indicator set named by the specification's header-detection
sentence, written from the spec (for comparison with `codeIndicators`,
which also contains `qty`). -/
def specIndicators : List String :=
  ["quantity", "item", "sku", "product", "price", "amount", "total"]

/-- Number of indicator terms that occur, case-insensitively, in some
cell of the row (`sum(1 for indicator in indicators if any(...))`). -/
def indicatorMatches (inds : List String) (headers : List String) : Nat :=
  (inds.filter (fun ind => headers.any (fun h => containsSub ind h))).length

/-- The lowercased cell texts used by `_is_line_items_table`
(`str(h).lower() if h else ""`). -/
def lowHeaders (row : Row) : List String :=
  row.map (fun c =>
    match c with
    | some s => if s ≠ "" then lowStr s else ""
    | none => "")

/-- Model of `_is_line_items_table`: at least 3 of the indicator terms
occur in the lowercased cells. -/
def is_line_items_table (row : Row) : Bool :=
  if row.isEmpty then false
  else 3 ≤ indicatorMatches codeIndicators (lowHeaders row)

/-- The header-search loop of `_extract_table_based`: the first row
among the first 5 rows recognized by `is_line_items_table`, with its
index. -/
def findHeaderAux : Nat → List Row → Option (Nat × Row)
  | _, [] => none
  | i, r :: rs => if is_line_items_table r then some (i, r) else findHeaderAux (i + 1) rs

/-- Header detection over a table (`for idx, row in enumerate(table[:5])`). -/
def findHeader (t : Table) : Option (Nat × Row) :=
  findHeaderAux 0 (t.take 5)

/-- The trim predicate of `_parse_continuation_row`
(`if cell and str(cell).strip()`). -/
def cellNonEmptyStrip (c : Cell) : Bool :=
  match c with
  | some s => s ≠ "" && pstrip s ≠ ""
  | none => false

/-- Index of the first cell passing the trim predicate. -/
def firstTruthyIdx : Nat → Row → Option Nat
  | _, [] => none
  | i, c :: cs => if cellNonEmptyStrip c then some i else firstTruthyIdx (i + 1) cs

/-- Index of the last cell passing the trim predicate. -/
def lastTruthyIdx (row : Row) : Option Nat :=
  (firstTruthyIdx 0 row.reverse).map (fun i => row.length - 1 - i)

/-- Positional parse of a trimmed continuation row of at least 5 cells
(the body guarded by `len(trimmed_row) >= 5` in
`_parse_continuation_row`): cell 0 is the quantity, cells 1-5 are
identifier, SKU, description, price, amount; cleanup and the
required-field check mirror the source line by line. -/
def contParse (trimmed : Row) (includeZeroQty : Bool) : Option LineItem :=
  match trimmed.getD 0 none with
  | some qs =>
    if qs ≠ "" then
      match pyFloat (pstrip qs) with
      | some d =>
        let qty := d.trunc
        if ¬includeZeroQty ∧ qty = 0 then none
        else
          let clean := fun (c : Cell) =>
            match c with
            | some s => if s ≠ "" then some (joinSplitWs (decode_cid_references s)) else some s
            | none => none
          let item1 :=
            match trimmed.getD 1 none with
            | some s => if s ≠ ""
                then some (extract_first_item_number (joinSplitWs (decode_cid_references s)))
                else some s
            | none => none
          let sku1 := clean (trimmed.getD 2 none)
          let desc1 := clean (trimmed.getD 3 none)
          let unit : Option Dec :=
            match trimmed.getD 4 none with
            | some s => if s ≠ ""
                then pyFloat (pstrip (remComma (remDollar (decode_cid_references s))))
                else none
            | none => none
          let amount : Option Dec :=
            match trimmed.getD 5 none with
            | some s => if s ≠ ""
                then pyFloat (pstrip (remComma (remDollar (decode_cid_references s))))
                else none
            | none => none
          if pyTruthyO item1 ∧ pyTruthyO sku1 ∧ pyTruthyO desc1 then
            some ⟨.int qty, none, item1.getD "", sku1.getD "", desc1.getD "",
                  unit, amount⟩
          else none
      | none => none
    else none
  | none => none

/-- The index-based trim of `_parse_continuation_row`: `start_idx`
defaults to 0 and `end_idx` to the row length when no cell passes the
predicate, exactly as the two `for` loops leave them. -/
def codeTrim (row : Row) : Row :=
  let s := (firstTruthyIdx 0 row).getD 0
  let e := ((lastTruthyIdx row).map (fun i => i + 1)).getD row.length
  (row.drop s).take (e - s)

/-- The trim named by the specification: remove the leading and the
trailing run of fully-empty cells (written from the spec's words, for
comparison with `codeTrim`). -/
def specTrim (row : Row) : Row :=
  ((row.dropWhile (fun c => !cellNonEmptyStrip c)).reverse.dropWhile
    (fun c => !cellNonEmptyStrip c)).reverse

/-- Model of `_parse_continuation_row`: a row with the header's cell
count goes through `parse_line_item_row`; otherwise the row is trimmed
and, when at least 5 cells survive, parsed positionally. -/
def parse_continuation_row (row header : Row) (includeZeroQty : Bool) :
    Option LineItem :=
  if row.isEmpty then none
  else if row.length = header.length then parse_line_item_row row header includeZeroQty
  else
    let trimmed := codeTrim row
    if 5 ≤ trimmed.length then contParse trimmed includeZeroQty else none

/-- The `any(cell for cell in row if cell)` guard: some cell is truthy. -/
def rowAnyTruthy (r : Row) : Bool :=
  r.any (fun c =>
    match c with
    | some s => s ≠ ""
    | none => false)

/-- The table loop of `_extract_table_based`, threading the
`last_header` state: a table whose first 5 rows contain a header is
parsed row by row below the header and updates `last_header`; a
headerless table is parsed as a continuation of the most recently seen
header, if any. -/
def extractGo (includeZeroQty : Bool) : Option Row → List Table → List LineItem
  | _, [] => []
  | last, t :: ts =>
    if t.isEmpty then extractGo includeZeroQty last ts
    else
      match findHeader t with
      | some (idx, hr) =>
        ((t.drop (idx + 1)).filterMap (fun r => parse_line_item_row r hr includeZeroQty))
          ++ extractGo includeZeroQty (some hr) ts
      | none =>
        match last with
        | some h =>
          (t.filterMap (fun r =>
            if rowAnyTruthy r then parse_continuation_row r h includeZeroQty else none))
            ++ extractGo includeZeroQty last ts
        | none => extractGo includeZeroQty last ts

/-- Model of `_extract_table_based` over the concatenated table list of
the document (pages only concatenate their tables, so the document is
the flat list). -/
def extract_table_based (tables : List Table) (includeZeroQty : Bool) : List LineItem :=
  extractGo includeZeroQty none tables

/-- The `last_header` value after processing a list of tables
(for stating how continuation tables reuse the most recent header). -/
def lastHeaderGo (last : Option Row) : List Table → Option Row
  | [] => last
  | t :: ts =>
    if t.isEmpty then lastHeaderGo last ts
    else
      match findHeader t with
      | some (_, hr) => lastHeaderGo (some hr) ts
      | none => lastHeaderGo last ts

/-- The most recent header of a table list, starting from none. -/
def lastHeaderOf (tables : List Table) : Option Row :=
  lastHeaderGo none tables

/-! ### Token machinery for the vendor line grammars

Each vendor pattern is an `re.match` regex whose pieces are separated
by `\s+`.  Because every fixed piece (digit runs, code classes,
currency fields) is followed in the pattern by `\s+` or the anchor, a
piece can only match a whole whitespace-separated token, and a lazy
`(.+?)` group captures the exact text between two token boundaries;
each embedded matcher below is derived this way and records the
original pattern.  The one non-structural case, a lazy group capturing
a single whitespace character out of a separator run of length at
least 3 (possible when the groups to its right match immediately), is
handled explicitly where it can arise. -/

/-- Whitespace-separated tokens, each paired with the whitespace run
that follows it (the run is empty only for the final token).  Leading
whitespace is dropped; matchers that are anchored at the line start
check the first character separately. -/
def splitWsPairsGo : Nat → List Char → List (List Char × List Char)
  | 0, _ => []
  | _ + 1, [] => []
  | fuel + 1, cs =>
    let tok := cs.takeWhile (fun c => !isWsCh c)
    let r1 := cs.drop tok.length
    let sep := r1.takeWhile isWsCh
    let r2 := r1.drop sep.length
    if tok.isEmpty then [] else (tok, sep) :: splitWsPairsGo fuel r2

/-- Token/separator pairs of a character list. -/
def splitWsPairs (cs : List Char) : List (List Char × List Char) :=
  splitWsPairsGo cs.length (cs.dropWhile isWsCh)

/-- Exact text of a token region: the tokens joined by their original
separators, without the separator that follows the last token. -/
def joinRegion : List (List Char × List Char) → List Char
  | [] => []
  | [(t, _)] => t
  | (t, s) :: rest => t ++ s ++ joinRegion rest

/-- A lazy `(.+?)` group between a fixed left part and a fixed right
part: with at least one middle token it captures exactly the region
text; with none it can still capture one whitespace character out of
the separator run (of length `L`) between the fixed parts, namely the
character at position `L - 2`, provided `L ≥ 3` (`\s+` before and
after the capture each need one character, and backtracking priority
makes the capture minimal). -/
def middleDesc (sepL : List Char) (mid : List (List Char × List Char)) :
    Option (List Char) :=
  match mid with
  | [] => if 3 ≤ sepL.length then some [sepL.getD (sepL.length - 2) ' '] else none
  | _ :: _ => some (joinRegion mid)

/-- Whole token matching `\d+`. -/
def allDigits (t : List Char) : Bool :=
  !t.isEmpty && t.all isDigitCh

/-- Whole token matching `\d{5,}`. -/
def digits5 (t : List Char) : Bool :=
  5 ≤ t.length && t.all isDigitCh

/-- Whole token matching `[A-Z0-9-]+`. -/
def itemClassTok (t : List Char) : Bool :=
  !t.isEmpty && t.all (fun c => isUpperCh c || isDigitCh c || c = '-')

/-- Whole token matching `[\d\-]+`. -/
def digitHyphenTok (t : List Char) : Bool :=
  !t.isEmpty && t.all (fun c => isDigitCh c || c = '-')

/-- Whole token matching `[\d,.]+`. -/
def digitsDotsCommaTok (t : List Char) : Bool :=
  !t.isEmpty && t.all (fun c => isDigitCh c || c = ',' || c = '.')

/-- Whole token matching `[\d.]+`. -/
def digitDotTok (t : List Char) : Bool :=
  !t.isEmpty && t.all (fun c => isDigitCh c || c = '.')

/-- Whole token matching `[\d,]+\.\d{2}` (a currency field followed in
the pattern by `\s+` or `$`).  The greedy `[\d,]+` can only end at the
first character outside its class, so the dot position is forced and
the match is deterministic.  Returns the digit/comma part and the two
cent digits. -/
def moneyExact (t : List Char) : Option (List Char × Char × Char) :=
  let a := t.takeWhile (fun c => isDigitCh c || c = ',')
  match t.drop a.length with
  | '.' :: d1 :: d2 :: rest =>
    if !a.isEmpty ∧ isDigitCh d1 ∧ isDigitCh d2 ∧ rest = [] then some (a, d1, d2)
    else none
  | _ => none

/-- Prefix of a token matching `[\d,]+\.\d{2}` when the group is the
last piece of an unanchored pattern (the Itoya amount field): the
match may stop inside the token after the two cent digits. -/
def moneyPre (t : List Char) : Option (List Char × Char × Char) :=
  let a := t.takeWhile (fun c => isDigitCh c || c = ',')
  match t.drop a.length with
  | '.' :: d1 :: d2 :: _ =>
    if !a.isEmpty ∧ isDigitCh d1 ∧ isDigitCh d2 then some (a, d1, d2)
    else none
  | _ => none

/-- Value of `float(captured.replace(",", ""))` for a captured currency
field. -/
def moneyVal (g : List Char × Char × Char) : Dec :=
  ⟨(natOfDigits ((g.1.filter (fun c => c ≠ ',')) ++ [g.2.1, g.2.2]) : ℤ), 2⟩

/-- Whole token matching `\d+\.\d+`, with its `float` value. -/
def decTok (t : List Char) : Option Dec :=
  let a := t.takeWhile isDigitCh
  match t.drop a.length with
  | '.' :: r =>
    if !a.isEmpty ∧ !r.isEmpty ∧ r.all isDigitCh then some (decOfParts a r) else none
  | _ => none

/-- Value of `float(t.replace(",", ""))` (equally of
`Decimal(t.replace(",", ""))`) for a token drawn from `[\d,.]+` or
`[\d.]+`: defined when, after comma removal, the text has at least one
digit and at most one dot. -/
def digitsDotsVal (t : List Char) : Option Dec :=
  let ds := t.filter (fun c => c ≠ ',')
  let a := ds.takeWhile isDigitCh
  match ds.drop a.length with
  | [] => if a.isEmpty then none else some ⟨(natOfDigits a : ℤ), 0⟩
  | '.' :: b =>
    if b.all isDigitCh ∧ (!a.isEmpty ∨ !b.isEmpty) then some (decOfParts a b)
    else none
  | _ => none

/-- Python `" ".join(parts)`. -/
def joinSp : List String → String
  | [] => ""
  | [s] => s
  | s :: rest => s ++ " " ++ joinSp rest

/-- Python `s.endswith(suf)`. -/
def endsWithSub (suf s : String) : Bool :=
  prefixOfCh suf.data.reverse s.data.reverse

/-! ### The Itoya scanner (`ItoyaParser.parse`) -/

/-- The tail of the Itoya item pattern,
`(?:EACH|BOX|PACK)\s+\d+\s+(\d+)\s+\d+\s+([\d,]+\.\d{2})\s+([\d,]+\.\d{2})`,
tried at a token boundary: a unit-of-measure token, the ordered
quantity, the captured shipped quantity, the back-ordered quantity,
the unit price (whole token) and the amount (token prefix, since the
pattern is unanchored).  Returns the shipped digits and the two
currency values. -/
def itoyaTail (ps : List (List Char × List Char)) :
    Option (List Char × Dec × Dec) :=
  match ps with
  | (u, _) :: (d1, _) :: (d2, _) :: (d3, _) :: (m1, _) :: (m2, _) :: _ =>
    if (u = "EACH".data ∨ u = "BOX".data ∨ u = "PACK".data)
        ∧ allDigits d1 ∧ allDigits d2 ∧ allDigits d3 then
      match moneyExact m1, moneyPre m2 with
      | some g1, some g2 => some (d2, moneyVal g1, moneyVal g2)
      | _, _ => none
    else none
  | _ => none

/-- The lazy description search of the Itoya pattern: the tail is tried
at each successive token boundary (earliest match wins); the
description accumulates the exact skipped text.  `pend` is the
separator run between the accumulated description and the next token. -/
def itoyaDescGo : Nat → List Char → List Char →
    List (List Char × List Char) → Option (List Char × List Char × Dec × Dec)
  | 0, _, _, _ => none
  | fuel + 1, descAcc, pend, ps =>
    match itoyaTail ps with
    | some (sh, p, a) =>
      if descAcc ≠ [] then some (descAcc, sh, p, a)
      else
        match ps with
        | [] => none
        | (t, s) :: rest => itoyaDescGo fuel (descAcc ++ pend ++ t) s rest
    | none =>
      match ps with
      | [] => none
      | (t, s) :: rest => itoyaDescGo fuel (descAcc ++ pend ++ t) s rest

/-- Model of the Itoya item regex
`^([\d\-]+)\s+(.+?)\s+(?:EACH|BOX|PACK)\s+\d+\s+(\d+)\s+\d+\s+([\d,]+\.\d{2})\s+([\d,]+\.\d{2})`
applied with `re.match` to the raw line: the item-number class must
match at position 0 and be followed by whitespace; then the lazy
description search runs over the remaining tokens, with the degenerate
whitespace-only description (separator run of length at least 3 and
the tail matching immediately) as the fallback the backtracking order
dictates.  Returns item number, description, shipped digits, price and
amount. -/
def itoyaMatch (line : String) :
    Option (List Char × List Char × List Char × Dec × Dec) :=
  match line.data with
  | [] => none
  | c :: _ =>
    if isWsCh c then none
    else
      let cs := line.data
      let t0 := cs.takeWhile (fun ch => isDigitCh ch || ch = '-')
      let r1 := cs.drop t0.length
      let s0 := r1.takeWhile isWsCh
      let body := r1.drop s0.length
      if t0 ≠ [] ∧ s0 ≠ [] then
        let ps := splitWsPairs body
        match itoyaDescGo (ps.length + 1) [] [] ps with
        | some (d, sh, p, a) => some (t0, d, sh, p, a)
        | none =>
          match itoyaTail ps with
          | some (sh, p, a) =>
            if 3 ≤ s0.length then
              some (t0, [s0.getD (s0.length - 2) ' '], sh, p, a)
            else none
          | none => none
      else none

/-- Model of `re.match(r"^[\d\-]+\s+", s)`: an item-number-class run at
the start followed by at least one whitespace character. -/
def startsItemNum (s : String) : Bool :=
  let t0 := s.data.takeWhile (fun ch => isDigitCh ch || ch = '-')
  !t0.isEmpty &&
    (match s.data.drop t0.length with
     | c :: _ => isWsCh c
     | [] => false)

/-- The per-page line loop of `ItoyaParser.parse`: the section opens at
the `Item Description UOM` header, closes (`break`) at a
subtotal/total/footer line, and inside it each matching line yields a
record whose description absorbs one always-collected continuation
line and, under the closing-parenthesis conditions of the source, a
second one.  `fuel` bounds the recursion and is instantiated with the
line count (each step consumes at least one line). -/
def itoyaGo (includeZeroQty : Bool) : Nat → Bool → List String → List LineItem
  | 0, _, _ => []
  | _ + 1, _, [] => []
  | fuel + 1, inSec, l :: rest =>
    if containsSub "Item Description UOM" l then itoyaGo includeZeroQty fuel true rest
    else if inSec ∧ (containsSub "Subtotal" l ∨ containsSub "Total" l
        ∨ containsSub "Page:" l ∨ containsSub "Net Invoice" l) then []
    else if inSec ∧ pstrip l ≠ "" then
      match itoyaMatch l with
      | some (item, desc, sh, price, amount) =>
        let d0 : String := ⟨stripCh desc⟩
        let parts : List String × Nat :=
          match rest with
          | [] => ([d0], 0)
          | n1 :: rest2 =>
            let nl1 := pstrip n1
            if nl1 ≠ "" ∧ ¬startsItemNum nl1 then
              match rest2 with
              | [] => ([d0, nl1], 1)
              | n2 :: _ =>
                let nl2 := pstrip n2
                if nl2 ≠ "" ∧ ¬startsItemNum nl2
                    ∧ (startsWithSub "(" nl2 ∨ ¬endsWithSub ")" nl1) then
                  ([d0, nl1, nl2], 2)
                else ([d0, nl1], 1)
            else ([d0], 0)
        let qty : Int := (natOfDigits sh : ℤ)
        let tail := itoyaGo includeZeroQty fuel true (rest.drop parts.2)
        if qty > 0 ∨ includeZeroQty then
          ⟨.int qty, none, ⟨stripCh item⟩, ⟨stripCh item⟩, joinSp parts.1,
            some price, some amount⟩ :: tail
        else tail
      | none => itoyaGo includeZeroQty fuel true rest
    else itoyaGo includeZeroQty fuel inSec rest

/-- Model of `ItoyaParser.parse` over the page texts of a document
(pages with no extractable text contribute nothing). -/
def itoyaParse (doc : List (Option String)) (includeZeroQty : Bool) : List LineItem :=
  (doc.map (fun page =>
    match page with
    | some t =>
      if t ≠ "" then
        let lines := (splitOnCh '\n' t.data).map (fun cs => (⟨cs⟩ : String))
        itoyaGo includeZeroQty lines.length false lines
      else []
    | none => [])).flatten

/-! ### The Montblanc scanner (`MontblancParser.parse`) -/

/-- Model of the alternative `Page\s*:` inside an anchored alternation:
the literal `Page`, optional whitespace, then `:`. -/
def pageColonStart (s : String) : Bool :=
  prefixOfCh "Page".data s.data &&
    (match (s.data.drop 4).dropWhile isWsCh with
     | ':' :: _ => true
     | _ => false)

/-- Model of
`re.match(r"^(SUBTOTAL|Freight|TOTAL|Net Weight|Montblanc|Page\s*:)", s)`,
the footer/header skip of the Montblanc loop. -/
def mbFooter (s : String) : Bool :=
  startsWithSub "SUBTOTAL" s || startsWithSub "Freight" s
    || startsWithSub "TOTAL" s || startsWithSub "Net Weight" s
    || startsWithSub "Montblanc" s || pageColonStart s

/-- Model of `re.match(r"^(\d{5,}|SUBTOTAL|DELIVERY:|Page\s*:)", s)`,
the stop condition of the description-collection loop. -/
def mbStop (s : String) : Bool :=
  5 ≤ (s.data.takeWhile isDigitCh).length || startsWithSub "SUBTOTAL" s
    || startsWithSub "DELIVERY:" s || pageColonStart s

/-- Model of `re.match(r"^(Customer PO:|SO:|Tracking|Gold Unit)", s)`,
the shipping-metadata filter of the description-collection loop. -/
def mbMeta (s : String) : Bool :=
  startsWithSub "Customer PO:" s || startsWithSub "SO:" s
    || startsWithSub "Tracking" s || startsWithSub "Gold Unit" s

/-- Model of Montblanc format A,
`^(\d{5,})\s+(.+?)\s+(\d+)\s+PC\s+([\d,]+\.\d{2})\s+([\d,]+\.\d{2})\s+([\d,]+\.\d{2})$`,
on the stripped line.  The `$` anchor fixes the three currency tokens,
the `PC` literal and the quantity at the last five token positions; the
article number is the first token; the lazy description is the exact
region between (or, degenerately, one whitespace character of the
separator run after the article number).  Returns article number,
description, quantity digits, unit price and total (the first currency
group, the retail price, is discarded as in the source). -/
def mbMatchA (cs : List Char) :
    Option (List Char × List Char × List Char × Dec × Dec) :=
  let ps := splitWsPairs cs
  let n := ps.length
  if 6 ≤ n then
    let t0 := (ps.getD 0 ([], [])).1
    let s0 := (ps.getD 0 ([], [])).2
    let q := (ps.getD (n - 5) ([], [])).1
    let pc := (ps.getD (n - 4) ([], [])).1
    let m1 := (ps.getD (n - 3) ([], [])).1
    let m2 := (ps.getD (n - 2) ([], [])).1
    let m3 := (ps.getD (n - 1) ([], [])).1
    if digits5 t0 ∧ allDigits q ∧ pc = "PC".data then
      match moneyExact m1, moneyExact m2, moneyExact m3 with
      | some _, some g2, some g3 =>
        match middleDesc s0 ((ps.drop 1).take (n - 6)) with
        | some d => some (t0, d, q, moneyVal g2, moneyVal g3)
        | none => none
      | _, _, _ => none
    else none
  else none

/-- Model of Montblanc format B,
`^(\d{5,})\s+(\d+)\s+PC\s+([\d,]+\.\d{2})\s+([\d,]+\.\d{2})\s+([\d,]+\.\d{2})$`:
exactly six tokens.  Returns article number, quantity digits, unit
price and total. -/
def mbMatchB (cs : List Char) : Option (List Char × List Char × Dec × Dec) :=
  match splitWsPairs cs with
  | [(t0, _), (q, _), (pc, _), (m1, _), (m2, _), (m3, _)] =>
    if digits5 t0 ∧ allDigits q ∧ pc = "PC".data then
      match moneyExact m1, moneyExact m2, moneyExact m3 with
      | some _, some g2, some g3 => some (t0, q, moneyVal g2, moneyVal g3)
      | _, _, _ => none
    else none
  | _ => none

/-- The description-collection loop shared by both Montblanc formats:
lines are consumed (stripped) until a stop line; non-empty lines that
are not shipping metadata are collected.  Returns the collected lines
and the remaining line list, positioned at the stop line. -/
def mbCollect : List String → (List String × List String)
  | [] => ([], [])
  | l :: rest =>
    let s := pstrip l
    if mbStop s then ([], l :: rest)
    else
      let pr := mbCollect rest
      if s ≠ "" ∧ ¬mbMeta s then (s :: pr.1, pr.2) else pr

/-- The per-page line loop of `MontblancParser.parse`: the section
opens at a header line mentioning `Article`, `Description` and `QTY`;
footer lines are skipped; a format-A line emits a record with its
inline description extended by the collected continuation lines; a
format-B line emits a record whose description is only the joined
collected lines.  `fuel` is instantiated with the line count. -/
def mbGo (includeZeroQty : Bool) : Nat → Bool → List String → List LineItem
  | 0, _, _ => []
  | _ + 1, _, [] => []
  | fuel + 1, inItems, l :: rest =>
    if containsSub "Article" l ∧ containsSub "Description" l ∧ containsSub "QTY" l then
      mbGo includeZeroQty fuel true rest
    else if ¬inItems then mbGo includeZeroQty fuel false rest
    else if mbFooter (pstrip l) then mbGo includeZeroQty fuel true rest
    else
      match mbMatchA (stripCh l.data) with
      | some (code, desc, q, unit, total) =>
        let qty : Int := (natOfDigits q : ℤ)
        if qty = 0 ∧ ¬includeZeroQty then mbGo includeZeroQty fuel true rest
        else
          let pr := mbCollect rest
          ⟨.int qty, none, ⟨code⟩, ⟨code⟩, joinSp ((⟨stripCh desc⟩ : String) :: pr.1),
            some unit, some total⟩ :: mbGo includeZeroQty fuel true pr.2
      | none =>
        match mbMatchB (stripCh l.data) with
        | some (code, q, unit, total) =>
          let qty : Int := (natOfDigits q : ℤ)
          if qty = 0 ∧ ¬includeZeroQty then mbGo includeZeroQty fuel true rest
          else
            let pr := mbCollect rest
            ⟨.int qty, none, ⟨code⟩, ⟨code⟩, joinSp pr.1,
              some unit, some total⟩ :: mbGo includeZeroQty fuel true pr.2
        | none => mbGo includeZeroQty fuel true rest

/-- Model of `MontblancParser.parse` over the page texts of a
document. -/
def montblancParse (doc : List (Option String)) (includeZeroQty : Bool) :
    List LineItem :=
  (doc.map (fun page =>
    match page with
    | some t =>
      if t ≠ "" then
        let lines := (splitOnCh '\n' t.data).map (fun cs => (⟨cs⟩ : String))
        mbGo includeZeroQty lines.length false lines
      else []
    | none => [])).flatten

/-! ### The Avanti scanner (`AvantiParser.parse`) -/

/-- Model of the Avanti item pattern
`^#(\d+)\s+(\S+)\s+(.+?)\s+(\d+\.\d+)\s+(\d+\.\d+)\s+(\d+\.\d+)$` on the
stripped line: the first token is `#` followed by digits, the second is
the product code (`\S+` takes a whole token), the `$` anchor fixes the
three decimal fields at the last three token positions, and the lazy
description is the exact region between (degenerately one whitespace
character).  Returns line-number digits, product code, description and
the three decimal values price, shipped quantity, line amount. -/
def avantiMatch (cs : List Char) :
    Option (List Char × List Char × List Char × Dec × Dec × Dec) :=
  let ps := splitWsPairs cs
  let n := ps.length
  if 5 ≤ n then
    match (ps.getD 0 ([], [])).1 with
    | '#' :: ds =>
      if allDigits ds then
        match decTok (ps.getD (n - 3) ([], [])).1,
              decTok (ps.getD (n - 2) ([], [])).1,
              decTok (ps.getD (n - 1) ([], [])).1 with
        | some d1, some d2, some d3 =>
          match middleDesc (ps.getD 1 ([], [])).2 ((ps.drop 2).take (n - 5)) with
          | some d => some (ds, (ps.getD 1 ([], [])).1, d, d1, d2, d3)
          | none => none
        | _, _, _ => none
      else none
    | _ => none
  else none

/-- The per-line step of `AvantiParser.parse`: a matching line yields a
record unless it has zero shipped quantity and zero-quantity rows are
excluded.  The quantity is stored as an `int` exactly when the parsed
float is integral (`int(qty) if qty == int(qty) else qty`). -/
def avantiLine (l : String) (includeZeroQty : Bool) : Option LineItem :=
  match avantiMatch (stripCh l.data) with
  | some (_, prod, desc, price, qty, amount) =>
    if qty.isZero ∧ ¬includeZeroQty then none
    else
      some ⟨(if qty.isIntegral then .int qty.trunc else .float qty),
            none, ⟨prod⟩, ⟨prod⟩, pstrip ⟨desc⟩, some price, some amount⟩
  | none => none

/-- Model of `AvantiParser.parse` over the page texts: each line is
matched independently. -/
def avantiParse (doc : List (Option String)) (includeZeroQty : Bool) :
    List LineItem :=
  (doc.map (fun page =>
    match page with
    | some t =>
      if t ≠ "" then
        ((splitOnCh '\n' t.data).map (fun cs => (⟨cs⟩ : String))).filterMap
          (fun l => avantiLine l includeZeroQty)
      else []
    | none => [])).flatten

/-! ### The Exaclair scanner (`ExaclairParser.parse`) -/

/-- The captured groups of an Exaclair item line used by the scanner
body: shipped digits, item token, description, and the raw retail
price, discount and total tokens. -/
structure ExaGroups where
  shp : List Char
  item : List Char
  desc : List Char
  priceT : List Char
  discT : List Char
  totalT : List Char
deriving DecidableEq

/-- Model of the Exaclair item pattern
`^(\d+)\s+(\d+)\s+(\d+)\s+(\S+)\s+(.+?)\s+([\d,.]+)\s+([\d,.]+)\s+([\d,.]+)$`
on the stripped line: ordered, shipped and back-ordered digit tokens,
the item token, the lazy description region, and the `$` anchor fixing
the retail price, discount percentage and total at the last three
token positions. -/
def exaMatch (cs : List Char) : Option ExaGroups :=
  let ps := splitWsPairs cs
  let n := ps.length
  if 7 ≤ n then
    let t0 := (ps.getD 0 ([], [])).1
    let t1 := (ps.getD 1 ([], [])).1
    let t2 := (ps.getD 2 ([], [])).1
    let t3 := ps.getD 3 ([], [])
    let m1 := (ps.getD (n - 3) ([], [])).1
    let m2 := (ps.getD (n - 2) ([], [])).1
    let m3 := (ps.getD (n - 1) ([], [])).1
    if allDigits t0 ∧ allDigits t1 ∧ allDigits t2
        ∧ digitsDotsCommaTok m1 ∧ digitsDotsCommaTok m2 ∧ digitsDotsCommaTok m3 then
      match middleDesc t3.2 ((ps.drop 4).take (n - 7)) with
      | some d => some ⟨t1, t3.1, d, m1, m2, m3⟩
      | none => none
    else none
  else none

/-- The per-line item step of `ExaclairParser.parse` inside the items
section: shipped quantity gate, exact `Decimal` computation
`retail * (1 - discount / 100)` quantized half-up to 2 places, and
`float` conversion of the total.  A total that fails `float` is
skipped by the `except ValueError` handler; a retail or discount token
that is not a valid numeral would raise an uncaught
`decimal.InvalidOperation` in the source and is likewise mapped to no
record here (no claim depends on that branch). -/
def exaclairLineItem (l : String) (includeZeroQty : Bool) : Option LineItem :=
  match exaMatch (stripCh l.data) with
  | some g =>
    let qty : Int := (natOfDigits g.shp : ℤ)
    if qty = 0 ∧ ¬includeZeroQty then none
    else
      match digitsDotsVal g.priceT, digitsDotsVal g.discT with
      | some retail, some discount =>
        match digitsDotsVal g.totalT with
        | some tot =>
          some ⟨.int qty, none, pstrip ⟨g.item⟩, pstrip ⟨g.item⟩, pstrip ⟨g.desc⟩,
                some ((retail.mul (Dec.sub ⟨1, 0⟩ (discount.shr 2))).quantHalfUp2),
                some tot⟩
        | none => none
      | _, _ => none
  | none => none

/-- The per-page line loop of `ExaclairParser.parse`: the items section
opens at either header phrase and closes at a subtotal/footer phrase. -/
def exaGo (includeZeroQty : Bool) : Bool → List String → List LineItem
  | _, [] => []
  | inItems, l :: rest =>
    if containsSub "Item Number Description" l ∨ containsSub "Ordered Shipped B. Order" l then
      exaGo includeZeroQty true rest
    else if inItems ∧ (containsSub "Subtotal" l ∨ containsSub "INVOICE Page" l
        ∨ containsSub "Comments:" l) then
      exaGo includeZeroQty false rest
    else if inItems ∧ pstrip l ≠ "" then
      match exaclairLineItem l includeZeroQty with
      | some it => it :: exaGo includeZeroQty true rest
      | none => exaGo includeZeroQty true rest
    else exaGo includeZeroQty inItems rest

/-- Model of `ExaclairParser.parse` over the page texts. -/
def exaclairParse (doc : List (Option String)) (includeZeroQty : Bool) :
    List LineItem :=
  (doc.map (fun page =>
    match page with
    | some t =>
      if t ≠ "" then
        exaGo includeZeroQty false ((splitOnCh '\n' t.data).map (fun cs => (⟨cs⟩ : String)))
      else []
    | none => [])).flatten

/-! ### The Chartpak scanner (`ChartpakParser.parse`) -/

/-- Model of Chartpak format 1,
`^(\d+)\s+EA\s+(?:(\d+)\s+)?([A-Z0-9-]+)\s+(.+?)\s+([\d.]+)\s+([\d.]+)\s+([\d.]+)\s+([\d.]+)$`:
shipped digits, the `EA` literal, an optional back-order digit token
(the greedy `?` makes the engine try the with-back-order reading first
and fall back to reading that token as the item code, which the class
`[A-Z0-9-]` also admits), the item code, the lazy description region,
and the `$` anchor fixing list price, discount, net price and amount
at the last four token positions.  Returns shipped digits, optional
back-order digits, item code, description, net-price token and amount
token. -/
def cpMatch1 (cs : List Char) :
    Option (List Char × Option (List Char) × List Char × List Char × List Char × List Char) :=
  let ps := splitWsPairs cs
  let n := ps.length
  if 7 ≤ n then
    let t0 := (ps.getD 0 ([], [])).1
    let t1 := (ps.getD 1 ([], [])).1
    let t2 := ps.getD 2 ([], [])
    let t3 := ps.getD 3 ([], [])
    let netT := (ps.getD (n - 2) ([], [])).1
    let amtT := (ps.getD (n - 1) ([], [])).1
    if allDigits t0 ∧ t1 = "EA".data
        ∧ digitDotTok (ps.getD (n - 4) ([], [])).1
        ∧ digitDotTok (ps.getD (n - 3) ([], [])).1
        ∧ digitDotTok netT ∧ digitDotTok amtT then
      let withOpt :=
        if 8 ≤ n ∧ allDigits t2.1 ∧ itemClassTok t3.1 then
          match middleDesc t3.2 ((ps.drop 4).take (n - 8)) with
          | some d => some (t0, some t2.1, t3.1, d, netT, amtT)
          | none => none
        else none
      match withOpt with
      | some r => some r
      | none =>
        if itemClassTok t2.1 then
          match middleDesc t2.2 ((ps.drop 3).take (n - 7)) with
          | some d => some (t0, none, t2.1, d, netT, amtT)
          | none => none
        else none
    else none
  else none

/-- Model of Chartpak format 2,
`^EA\s+(\d+)\s+([A-Z0-9-]+)\s+(.+?)\s+([\d.]+)\s+([\d.]+)\s+([\d.]+)\s+([\d.]+)$`
(back-order-only lines).  Returns back-order digits, item code,
description, net-price token and amount token. -/
def cpMatch2 (cs : List Char) :
    Option (List Char × List Char × List Char × List Char × List Char) :=
  let ps := splitWsPairs cs
  let n := ps.length
  if 7 ≤ n then
    let t0 := (ps.getD 0 ([], [])).1
    let t1 := (ps.getD 1 ([], [])).1
    let t2 := ps.getD 2 ([], [])
    let netT := (ps.getD (n - 2) ([], [])).1
    let amtT := (ps.getD (n - 1) ([], [])).1
    if t0 = "EA".data ∧ allDigits t1 ∧ itemClassTok t2.1
        ∧ digitDotTok (ps.getD (n - 4) ([], [])).1
        ∧ digitDotTok (ps.getD (n - 3) ([], [])).1
        ∧ digitDotTok netT ∧ digitDotTok amtT then
      match middleDesc t2.2 ((ps.drop 3).take (n - 7)) with
      | some d => some (t1, t2.1, d, netT, amtT)
      | none => none
    else none
  else none

/-- The per-page line loop of `ChartpakParser.parse`: the section opens
at the `SHIPPED`/`UNIT`/`CATALOG` header and closes at a line
containing `SUB-TOTAL` or `TOTAL`.  A format-1 line is gated on the
shipped quantity when zero-quantity rows are excluded; a format-2 line
always emits a record with quantity 0 and total 0.0 (the source applies
no zero-quantity gate on this branch). -/
def cpGo (includeZeroQty : Bool) : Bool → List String → List LineItem
  | _, [] => []
  | inItems, l :: rest =>
    if containsSub "SHIPPED" l ∧ containsSub "UNIT" l ∧ containsSub "CATALOG" l then
      cpGo includeZeroQty true rest
    else if containsSub "SUB-TOTAL" l ∨ containsSub "TOTAL" l then
      cpGo includeZeroQty false rest
    else if inItems ∧ pstrip l ≠ "" then
      match cpMatch1 (stripCh l.data) with
      | some (q, _, item, desc, netT, amtT) =>
        let shipped : Int := (natOfDigits q : ℤ)
        if shipped = 0 ∧ ¬includeZeroQty then cpGo includeZeroQty true rest
        else
          match digitsDotsVal netT, digitsDotsVal amtT with
          | some net, some amt =>
            ⟨.int shipped, none, ⟨item⟩, ⟨item⟩, pstrip ⟨desc⟩, some net, some amt⟩
              :: cpGo includeZeroQty true rest
          | _, _ => cpGo includeZeroQty true rest
      | none =>
        match cpMatch2 (stripCh l.data) with
        | some (_, item, desc, netT, _) =>
          match digitsDotsVal netT with
          | some net =>
            ⟨.int 0, none, ⟨item⟩, ⟨item⟩, pstrip ⟨desc⟩, some net, some ⟨0, 0⟩⟩
              :: cpGo includeZeroQty true rest
          | none => cpGo includeZeroQty true rest
        | none => cpGo includeZeroQty true rest
    else cpGo includeZeroQty inItems rest

/-- Model of `ChartpakParser.parse` over the page texts. -/
def chartpakParse (doc : List (Option String)) (includeZeroQty : Bool) :
    List LineItem :=
  (doc.map (fun page =>
    match page with
    | some t =>
      if t ≠ "" then
        cpGo includeZeroQty false ((splitOnCh '\n' t.data).map (fun cs => (⟨cs⟩ : String)))
      else []
    | none => [])).flatten

/-! ### The Kenro scanner (`KenroParser.parse`) -/

/-- Python `repr` of a row as used by `str(row)` in the Kenro and
similar header checks: cells joined by  `, `  inside brackets, strings
in single quotes, `None` bare.  (Header cells contain no quotes or
backslashes, so the simple quoting rule is exact there.) -/
def pyReprCells : List Cell → String
  | [] => ""
  | [c] =>
    (match c with
     | some s => "'" ++ s ++ "'"
     | none => "None")
  | c :: rest =>
    (match c with
     | some s => "'" ++ s ++ "'"
     | none => "None") ++ ", " ++ pyReprCells rest

/-- Python `str(row)` for a list of optional strings. -/
def pyReprRow (r : Row) : String :=
  "[" ++ pyReprCells r ++ "]"

/-- Remove all whitespace: `re.sub(r"\s+", "", s)`. -/
def removeAllWs (s : String) : String :=
  ⟨s.data.filter (fun c => !isWsCh c)⟩

/-- Insert a space at each lowercase-to-uppercase boundary:
`re.sub(r"(?<=[a-z])(?=[A-Z])", " ", s)`. -/
def camelInsCh : List Char → List Char
  | [] => []
  | c1 :: rest =>
    match rest with
    | [] => [c1]
    | c2 :: _ =>
      if isLowerCh c1 ∧ isUpperCh c2 then c1 :: ' ' :: camelInsCh rest
      else c1 :: camelInsCh rest

/-- Put spaces around each slash: `re.sub(r"/", " / ", s)`. -/
def slashPadCh (cs : List Char) : List Char :=
  cs.foldr (fun c acc => if c = '/' then ' ' :: '/' :: ' ' :: acc else c :: acc) []

/-- Collapse each whitespace run to a single space:
`re.sub(r"\s+", " ", s)`. -/
def collapseWsCh : List Char → List Char
  | [] => []
  | c :: rest =>
    match rest with
    | [] => [if isWsCh c then ' ' else c]
    | d :: _ =>
      if isWsCh c then
        if isWsCh d then collapseWsCh rest else ' ' :: collapseWsCh rest
      else c :: collapseWsCh rest

/-- Model of the local `despace_and_format_desc`: remove all
whitespace, reinsert a space at each lowercase-to-uppercase boundary,
put spaces around slashes, collapse repeated spaces, strip. -/
def despace_and_format_desc (s : String) : String :=
  ⟨stripCh (collapseWsCh (slashPadCh (camelInsCh (removeAllWs s).data)))⟩

/-- Model of `re.search(r"(?:\w\s){3,}", s)`: three consecutive
word-character-plus-whitespace pairs occur somewhere. -/
def hasSpacedRunCh : List Char → Bool
  | c1 :: c2 :: c3 :: c4 :: c5 :: c6 :: rest =>
    (isWordCh c1 && isWsCh c2 && isWordCh c3 && isWsCh c4 && isWordCh c5 && isWsCh c6)
      || hasSpacedRunCh (c2 :: c3 :: c4 :: c5 :: c6 :: rest)
  | _ => false

/-- Model of `re.search(r"\d\s+\d", s)`: a digit, a whitespace run and
another digit occur somewhere. -/
def hasDigitGap : List Char → Bool
  | [] => false
  | c :: rest =>
    (isDigitCh c &&
      (let ws := rest.takeWhile isWsCh
       !ws.isEmpty &&
        (match rest.drop ws.length with
         | d :: _ => isDigitCh d
         | [] => false)))
      || hasDigitGap rest

/-- The guarded cell reads of the Kenro row loop
(`str(row[i]).strip() if len(row) > i and row[i] else ""`). -/
def cellStr (c : Cell) : String :=
  match c with
  | some s => if s ≠ "" then pstrip s else ""
  | none => ""

/-- One step of the Kenro continuation lookahead (`for offset in
[1, 2]`): `none` means the loop breaks at this row (too short, or it
carries an item code or a numeric quantity); `some none` means the row
is passed over without collecting; `some (some d)` collects its
description cell, de-spaced when letter-spaced. -/
def kenroContOne (row : Row) : Option (Option String) :=
  if row.length ≤ 1 then none
  else
    let nic := cellStr (row.getD 0 none)
    let nqty := cellStr (row.getD 3 none)
    if nic ≠ "" ∨ (nqty ≠ "" ∧ nqty.data.all isDigitCh) then none
    else
      let nd := cellStr (row.getD 1 none)
      if nd ≠ "" then
        some (some (if hasSpacedRunCh nd.data then despace_and_format_desc nd else nd))
      else some none

/-- The two-offset continuation scan: collected description parts and
the number of rows counted as continuations (only collecting rows
count, as in the source, which increments `continuation_rows` only
when a description is appended). -/
def kenroCont (rest : List Row) : List String × Nat :=
  match rest with
  | [] => ([], 0)
  | r1 :: rest2 =>
    match kenroContOne r1 with
    | none => ([], 0)
    | some o1 =>
      let p1 : List String × Nat :=
        match o1 with
        | some d => ([d], 1)
        | none => ([], 0)
      match rest2 with
      | [] => p1
      | r2 :: _ =>
        match kenroContOne r2 with
        | none => p1
        | some (some d) => (p1.1 ++ [d], p1.2 + 1)
        | some none => p1

/-- The row loop of `KenroParser.parse` below a header: fields are read
from the fixed cell positions (0 item code, 1 description, 3 quantity,
8 price, 9 backorder, 11 amount), letter-spaced text is repaired, rows
without an all-digit quantity are skipped, the description absorbs up
to two continuation rows, the zero-quantity gate applies, prices are
converted with empty cells defaulting to 0.0 (a `float` failure takes
the `except` path, which advances one row), and the record is emitted
only when item code and description are non-empty.  `fuel` is
instantiated with the row count. -/
def kenroRows (includeZeroQty : Bool) : Nat → List Row → List LineItem
  | 0, _ => []
  | _ + 1, [] => []
  | fuel + 1, row :: rest =>
    if row.length < 4 then kenroRows includeZeroQty fuel rest
    else
      let itemRaw := cellStr (row.getD 0 none)
      let descRaw := cellStr (row.getD 1 none)
      let qtyRaw := cellStr (row.getD 3 none)
      let priceRaw := cellStr (row.getD 8 none)
      let boRaw := cellStr (row.getD 9 none)
      let amtRaw := cellStr (row.getD 11 none)
      let item_code := if hasSpacedRunCh itemRaw.data then removeAllWs itemRaw else itemRaw
      let desc0 := if hasSpacedRunCh descRaw.data then despace_and_format_desc descRaw else descRaw
      let qty1 := if hasDigitGap qtyRaw.data then removeAllWs qtyRaw else qtyRaw
      let price1 := if hasDigitGap priceRaw.data then removeAllWs priceRaw else priceRaw
      let bo1 := if hasDigitGap boRaw.data then removeAllWs boRaw else boRaw
      let amt1 := if hasDigitGap amtRaw.data then removeAllWs amtRaw else amtRaw
      if qty1 = "" ∨ ¬qty1.data.all isDigitCh then kenroRows includeZeroQty fuel rest
      else
        let cont := kenroCont rest
        let qty : Int := (natOfDigits qty1.data : ℤ)
        if qty = 0 ∧ ¬includeZeroQty then
          kenroRows includeZeroQty fuel (rest.drop cont.2)
        else
          match (if price1 = "" then some ⟨0, 0⟩ else pyFloat price1) with
          | none => kenroRows includeZeroQty fuel rest
          | some price =>
            let bo : Int := if bo1 ≠ "" ∧ bo1.data.all isDigitCh then (natOfDigits bo1.data : ℤ) else 0
            match (if amt1 = "" then some ⟨0, 0⟩ else pyFloat amt1) with
            | none => kenroRows includeZeroQty fuel rest
            | some amount =>
              let desc := joinSp (desc0 :: cont.1)
              if item_code ≠ "" ∧ desc ≠ "" then
                ⟨.int qty, some bo, item_code, item_code, desc, some price, some amount⟩
                  :: kenroRows includeZeroQty fuel (rest.drop cont.2)
              else kenroRows includeZeroQty fuel (rest.drop cont.2)

/-- The Kenro header search (`"Item Code" in str(row) and "Description"
in str(row)` over the first 5 rows). -/
def kenroFindHeaderAux : Nat → List Row → Option Nat
  | _, [] => none
  | i, r :: rs =>
    if containsSub "Item Code" (pyReprRow r) ∧ containsSub "Description" (pyReprRow r)
    then some i else kenroFindHeaderAux (i + 1) rs

/-- One table of `KenroParser.parse`: tables of fewer than 3 rows and
tables without a header are skipped. -/
def kenroTable (includeZeroQty : Bool) (t : Table) : List LineItem :=
  if t.length < 3 then []
  else
    match kenroFindHeaderAux 0 (t.take 5) with
    | some idx => kenroRows includeZeroQty t.length (t.drop (idx + 1))
    | none => []

/-- Model of `KenroParser.parse` over the concatenated tables of the
document (pages only concatenate their tables). -/
def kenroParse (tables : List Table) (includeZeroQty : Bool) : List LineItem :=
  (tables.map (kenroTable includeZeroQty)).flatten

/-! ### Vendor detection and dispatch (`detect_vendor`,
`CUSTOM_PARSERS`, `parse_with_custom_parser`) -/

/-- Model of `detect_vendor`: the if/elif chain of substring tests over
the first-page text, in source order, returning the identifier of the
first test that holds and the empty string when none does. -/
def detect_vendor (t : String) : String :=
  if containsSub "ITOYA" t && containsSub "Item Description UOM" t then "itoya"
  else if containsSub "Luxury Brands" t || containsSub "luxurybrands" (lowStr t) then "luxury_brands"
  else if containsSub "Rediform" t || containsSub "REDIFORM" t then "rediform"
  else if containsSub "Tom's Studio" t then "toms_studio"
  else if containsSub "Coles" t && containsSub "McAlpine Park Drive" t then "coles"
  else if containsSub "Lamy USA" t || containsSub "LAMY" t then "lamy"
  else if containsSub "PCAINV" t && containsSub "DALLAS, TX" t then "pilot"
  else if containsSub "Montblanc North America" t then "montblanc"
  else if containsSub "Lighthouse Publications" t then "lighthouse"
  else if containsSub "Retro 1951" t || containsSub "retro51.com" t then "retro51"
  else if containsSub "TWSBI INC" t then "twsbi"
  else if containsSub "Write USA LLC" t then "writeusa"
  else if containsSub "Kenro Industries" t then "kenro"
  else if containsSub "AVANTI PRESS" t then "avanti"
  else if containsSub "PLOTTER USA" t || containsSub "plotterusa.com" (lowStr t) then "plotter"
  else if containsSub "ORDER NUMBER" t && containsSub "SL_" t then "tsl"
  else if containsSub "EXACLAIR, INC." t || containsSub "EXACLAIR" t then "exaclair"
  else if containsSub "uni-ball Corporation" t || containsSub "uni-ball" t then "uniball"
  else if containsSub "Ameico" t && containsSub "New Milford CT" t then "ameico"
  else if containsSub "CHARTPAK" t || containsSub "CHARTPAK, INC" t then "chartpak"
  else if containsSub "JPT AMERICA" t || containsSub "jptamerica" (lowStr t) then "jpt"
  else if containsSub "Abledesign Entertainment" t || containsSub "Order Sheet" t then "wearingeul"
  else if containsSub "Elite Accessories" t || containsSub "ELITE ACCESSORIES" t then "elite_accessories"
  else ""

/-- The ordered predicate/identifier list of `detect_vendor`, with each
predicate written exactly as the corresponding chain condition. -/
def vendorRules : List (String × (String → Bool)) :=
  [("itoya", fun t => containsSub "ITOYA" t && containsSub "Item Description UOM" t),
   ("luxury_brands", fun t => containsSub "Luxury Brands" t || containsSub "luxurybrands" (lowStr t)),
   ("rediform", fun t => containsSub "Rediform" t || containsSub "REDIFORM" t),
   ("toms_studio", fun t => containsSub "Tom's Studio" t),
   ("coles", fun t => containsSub "Coles" t && containsSub "McAlpine Park Drive" t),
   ("lamy", fun t => containsSub "Lamy USA" t || containsSub "LAMY" t),
   ("pilot", fun t => containsSub "PCAINV" t && containsSub "DALLAS, TX" t),
   ("montblanc", fun t => containsSub "Montblanc North America" t),
   ("lighthouse", fun t => containsSub "Lighthouse Publications" t),
   ("retro51", fun t => containsSub "Retro 1951" t || containsSub "retro51.com" t),
   ("twsbi", fun t => containsSub "TWSBI INC" t),
   ("writeusa", fun t => containsSub "Write USA LLC" t),
   ("kenro", fun t => containsSub "Kenro Industries" t),
   ("avanti", fun t => containsSub "AVANTI PRESS" t),
   ("plotter", fun t => containsSub "PLOTTER USA" t || containsSub "plotterusa.com" (lowStr t)),
   ("tsl", fun t => containsSub "ORDER NUMBER" t && containsSub "SL_" t),
   ("exaclair", fun t => containsSub "EXACLAIR, INC." t || containsSub "EXACLAIR" t),
   ("uniball", fun t => containsSub "uni-ball Corporation" t || containsSub "uni-ball" t),
   ("ameico", fun t => containsSub "Ameico" t && containsSub "New Milford CT" t),
   ("chartpak", fun t => containsSub "CHARTPAK" t || containsSub "CHARTPAK, INC" t),
   ("jpt", fun t => containsSub "JPT AMERICA" t || containsSub "jptamerica" (lowStr t)),
   ("wearingeul", fun t => containsSub "Abledesign Entertainment" t || containsSub "Order Sheet" t),
   ("elite_accessories", fun t => containsSub "Elite Accessories" t || containsSub "ELITE ACCESSORIES" t)]

/-- First-match evaluation of an ordered rule list, returning the empty
string when no rule matches. -/
def findRule : List (String × (String → Bool)) → String → String
  | [], _ => ""
  | r :: rs, t => if r.2 t then r.1 else findRule rs t

/-- The key list of the `CUSTOM_PARSERS` registry dict, in source
order.  (The registry maps each key to the corresponding parser class;
this development embeds the parse functions of the vendors its claims
exercise.) -/
def CUSTOM_PARSERS_keys : List String :=
  ["itoya", "luxury_brands", "rediform", "toms_studio", "coles", "lamy",
   "pilot", "montblanc", "lighthouse", "retro51", "twsbi", "writeusa",
   "kenro", "avanti", "plotter", "tsl", "exaclair", "uniball", "ameico",
   "chartpak", "jpt", "wearingeul", "elite_accessories"]

/-- First-page text of a document (`pdf.pages[0].extract_text() or ""`). -/
def firstPageText (doc : List (Option String)) : String :=
  match doc with
  | [] => ""
  | p :: _ => p.getD ""

/-- Model of `parse_with_custom_parser`, parameterized by the function
that applies the registered parser class of a vendor key to the
document (`CUSTOM_PARSERS[vendor].parse(pdf_path, include_zero_qty)`);
the dispatch itself — empty page list gives `[]`, vendor detection on
the first page, the `vendor and vendor in CUSTOM_PARSERS` guard — is
embedded directly. -/
def parse_with_custom_scanner
    (registryParse : String → List (Option String) → Bool → List LineItem)
    (doc : List (Option String)) (includeZeroQty : Bool) : List LineItem :=
  match doc with
  | [] => []
  | _ :: _ =>
    let vendor := detect_vendor (firstPageText doc)
    if vendor ≠ "" ∧ vendor ∈ CUSTOM_PARSERS_keys then
      registryParse vendor doc includeZeroQty
    else []

/-- A registry application covering the `itoya` entry with the embedded
`ItoyaParser.parse` (the only entry exercised by the concrete documents
below; detection on them returns `itoya`). -/
def registryItoya (v : String) (doc : List (Option String)) (inc : Bool) :
    List LineItem :=
  if v = "itoya" then itoyaParse doc inc else []

/-! ### Arithmetic facts about scaled decimals -/

theorem pow10_pos (k : Nat) : (0 : ℚ) < (10 : ℚ) ^ k :=
  pow_pos (by norm_num) k

theorem Dec.toRat_nonneg (d : Dec) (h : 0 ≤ d.m) : 0 ≤ d.toRat :=
  div_nonneg (by exact_mod_cast h) (le_of_lt (pow10_pos d.k))

theorem Dec.toRat_nonneg_iff (d : Dec) : 0 ≤ d.toRat ↔ 0 ≤ d.m := by
  unfold Dec.toRat
  rw [div_nonneg_iff]
  constructor
  · intro h
    rcases h with ⟨h1, _⟩ | ⟨_, h2⟩
    · exact_mod_cast h1
    · have := pow10_pos d.k
      have h0 : ((d.m : ℚ)) ≤ 0 := ‹_›
      exact absurd (lt_of_lt_of_le this h2) (lt_irrefl _)
  · intro h
    exact Or.inl ⟨by exact_mod_cast h, le_of_lt (pow10_pos d.k)⟩

theorem Dec.toRat_mul (a b : Dec) : (a.mul b).toRat = a.toRat * b.toRat := by
  simp only [Dec.mul, Dec.toRat]
  push_cast
  rw [pow_add, div_mul_div_comm]

theorem Dec.toRat_sub (a b : Dec) : (a.sub b).toRat = a.toRat - b.toRat := by
  simp only [Dec.sub, Dec.toRat]
  have ha : a.k ≤ max a.k b.k := le_max_left _ _
  have hb : b.k ≤ max a.k b.k := le_max_right _ _
  have e1 : (10 : ℚ) ^ (max a.k b.k - a.k) * (10 : ℚ) ^ a.k = 10 ^ max a.k b.k := by
    rw [← pow_add, Nat.sub_add_cancel ha]
  have e2 : (10 : ℚ) ^ (max a.k b.k - b.k) * (10 : ℚ) ^ b.k = 10 ^ max a.k b.k := by
    rw [← pow_add, Nat.sub_add_cancel hb]
  push_cast
  rw [sub_div]
  congr 1
  · rw [← e1, mul_comm ((10 : ℚ) ^ (max a.k b.k - a.k)) ((10 : ℚ) ^ a.k),
      mul_div_mul_right _ _ (ne_of_gt (pow10_pos (max a.k b.k - a.k)))]
  · rw [← e2, mul_comm ((10 : ℚ) ^ (max a.k b.k - b.k)) ((10 : ℚ) ^ b.k),
      mul_div_mul_right _ _ (ne_of_gt (pow10_pos (max a.k b.k - b.k)))]

theorem Dec.toRat_shr (a : Dec) (n : Nat) : (a.shr n).toRat = a.toRat / (10 : ℚ) ^ n := by
  simp only [Dec.shr, Dec.toRat]
  rw [pow_add, div_div]

theorem Dec.toRat_one : (⟨1, 0⟩ : Dec).toRat = 1 := by
  simp [Dec.toRat]

/-- Half-up quantization of a scaled decimal agrees with the rational
`round_half_up` of its value. -/
theorem Dec.toRat_quantHalfUp2 (a : Dec) :
    (a.quantHalfUp2).toRat = round_half_up a.toRat := by
  have hsign : 0 ≤ a.toRat ↔ 0 ≤ a.m := Dec.toRat_nonneg_iff a
  by_cases hk : a.k ≤ 2
  · -- at most 2 decimal places: both sides are the exact value
    have hz : a.toRat * 100 = ((a.m * 10 ^ (2 - a.k) : ℤ) : ℚ) := by
      push_cast
      rw [Dec.toRat]
      have e : (10 : ℚ) ^ (2 - a.k) * (10 : ℚ) ^ a.k = 100 := by
        rw [← pow_add, Nat.sub_add_cancel hk]; norm_num
      field_simp
      calc (a.m : ℚ) * 100 = (a.m : ℚ) * ((10 : ℚ) ^ (2 - a.k) * (10 : ℚ) ^ a.k) := by rw [e]
        _ = (a.m : ℚ) * 10 ^ (2 - a.k) * 10 ^ a.k := by ring
    have hfl : ∀ z : ℤ, ⌊(z : ℚ) + 1 / 2⌋ = z := by
      intro z
      rw [add_comm, Int.floor_add_int]
      norm_num
    simp only [Dec.quantHalfUp2, hk, if_true, round_half_up]
    by_cases hv : 0 ≤ a.toRat
    · rw [if_pos hv, hz, hfl, Dec.toRat]
      norm_num
    · rw [if_neg hv]
      have : -a.toRat * 100 = ((-(a.m * 10 ^ (2 - a.k)) : ℤ) : ℚ) := by
        push_cast
        push_cast at hz
        linarith
      rw [this, hfl, Dec.toRat]
      push_cast
      ring
  · -- more than 2 places: floor of the shifted value
    have hk2 : 1 ≤ a.k - 2 := by omega
    have hdef : ((((10 : ℕ) ^ (a.k - 2) : ℕ) : ℤ)) = (10 : ℤ) ^ (a.k - 2) := by push_cast; rfl
    set hn : ℕ := (10 : ℕ) ^ (a.k - 2) with hndef
    set h : ℤ := (10 : ℤ) ^ (a.k - 2) with hzdef
    have hpos : (0 : ℤ) < h := by positivity
    have hne : ((h : ℤ) : ℚ) ≠ 0 := by exact_mod_cast ne_of_gt hpos
    have heven : (2 : ℤ) ∣ h := by
      rw [hzdef]
      have h10 : (2 : ℤ) ∣ 10 := by norm_num
      calc (2 : ℤ) ∣ 10 ^ 1 := by simpa using h10
        _ ∣ 10 ^ (a.k - 2) := pow_dvd_pow 10 hk2
    obtain ⟨t, ht⟩ := heven
    have htdiv : Int.tdiv h 2 = t := by rw [ht, Int.mul_tdiv_cancel_left _ (by norm_num)]
    have htq : ((Int.tdiv h 2 : ℤ) : ℚ) = (h : ℚ) / 2 := by
      rw [htdiv, ht]; push_cast; ring
    have hpow : ((10 : ℚ)) ^ a.k = (h : ℚ) * 100 := by
      rw [hzdef]
      push_cast
      have e100 : (100 : ℚ) = 10 ^ 2 := by norm_num
      rw [e100, ← pow_add]
      congr 1
      omega
    have hshift : a.toRat * 100 = (a.m : ℚ) / (h : ℚ) := by
      rw [Dec.toRat, hpow]
      rw [div_mul_eq_mul_div, mul_comm (h : ℚ) 100, ← div_div]
      congr 1
      rw [mul_div_assoc, div_self (by norm_num : (100 : ℚ) ≠ 0), mul_one]
    have hfloor : ∀ x : ℤ, ⌊((x : ℚ) / (h : ℚ) + 1 / 2)⌋ = Int.fdiv (x + Int.tdiv h 2) h := by
      intro x
      have half : ((h : ℚ) / 2) / (h : ℚ) = 1 / 2 := by field_simp; ring
      have key : ((x + Int.tdiv h 2 : ℤ) : ℚ) / (h : ℚ) = (x : ℚ) / (h : ℚ) + 1 / 2 := by
        push_cast [htq]
        rw [add_div, half]
      have hcast : ((h : ℤ) : ℚ) = ((hn : ℕ) : ℚ) := by
        rw [← hdef]; push_cast; rfl
      rw [← key, hcast, Rat.floor_intCast_div_natCast,
        Int.fdiv_eq_ediv _ (le_of_lt hpos), hdef]
    simp only [Dec.quantHalfUp2, round_half_up]
    rw [if_neg hk, ← hzdef]
    by_cases hm : 0 ≤ a.m
    · rw [if_pos hm, if_pos (hsign.mpr hm)]
      have hf : ⌊a.toRat * 100 + 1 / 2⌋ = Int.fdiv (a.m + Int.tdiv h 2) h := by
        rw [hshift]; exact hfloor a.m
      rw [hf]
      simp [Dec.toRat]
      norm_num
    · rw [if_neg hm, if_neg (fun hc => hm (hsign.mp hc))]
      have hneg : -a.toRat * 100 = ((-a.m : ℤ) : ℚ) / (h : ℚ) := by
        push_cast
        rw [neg_div]
        linarith [hshift]
      have hf : ⌊-a.toRat * 100 + 1 / 2⌋ = Int.fdiv (-a.m + Int.tdiv h 2) h := by
        rw [hneg]; exact hfloor (-a.m)
      rw [hf]
      simp [Dec.toRat]
      ring

/-! ### Facts about first-match rule evaluation -/

theorem findRule_eq_find? (rs : List (String × (String → Bool))) (t : String) :
    findRule rs t = ((rs.find? (fun r => r.2 t)).map (fun r => r.1)).getD "" := by
  induction rs with
  | nil => rfl
  | cons r rest ih =>
    cases hr : r.2 t with
    | true => simp [findRule, List.find?_cons, hr]
    | false => simp [findRule, List.find?_cons, hr, ih]

theorem findRule_no_match (rs : List (String × (String → Bool))) (t : String)
    (h : ∀ r ∈ rs, r.2 t = false) : findRule rs t = "" := by
  induction rs with
  | nil => rfl
  | cons r rest ih =>
    have hr := h r (List.mem_cons_self r rest)
    simp only [findRule, hr, Bool.false_eq_true, if_false]
    exact ih (fun r' hr' => h r' (List.mem_cons_of_mem r hr'))

theorem findRule_mem_or (rs : List (String × (String → Bool))) (t : String) :
    findRule rs t = "" ∨ findRule rs t ∈ rs.map (fun r => r.1) := by
  induction rs with
  | nil => exact Or.inl rfl
  | cons r rest ih =>
    by_cases hr : r.2 t
    · right
      simp [findRule, hr]
    · have : findRule (r :: rest) t = findRule rest t := by simp [findRule, hr]
      rw [this]
      rcases ih with h | h
      · exact Or.inl h
      · exact Or.inr (by simp [h])

/-- The rule identifiers of `detect_vendor` are exactly the registry
keys, in the same order. -/
theorem vendorRules_ids_eq_keys :
    vendorRules.map (fun r => r.1) = CUSTOM_PARSERS_keys := by rfl

/-- A successful detection always lands in the registry. -/
theorem detect_vendor_mem_keys (t : String) (h : detect_vendor t ≠ "") :
    detect_vendor t ∈ CUSTOM_PARSERS_keys := by
  have hdv : detect_vendor t = findRule vendorRules t := rfl
  rcases findRule_mem_or vendorRules t with h0 | hm
  · exact absurd (hdv.trans h0) h
  · rw [hdv, ← vendorRules_ids_eq_keys]
    exact hm

/-- C5: `detect_vendor` is a pure total function of the first-page
text that evaluates the fixed ordered list of substring predicates
(`vendorRules`, read off the source chain) and returns the identifier
of the first predicate that matches; on an input matching no predicate
it returns the empty string, and every result is either one of the
fixed identifiers or the empty string.  (Purity and determinism hold
by construction: the model is a function.) -/
theorem detect_vendor_first_match (t : String) :
    detect_vendor t = ((vendorRules.find? (fun r => r.2 t)).map (fun r => r.1)).getD ""
    ∧ ((∀ r ∈ vendorRules, r.2 t = false) → detect_vendor t = "")
    ∧ (detect_vendor t = "" ∨ detect_vendor t ∈ vendorRules.map (fun r => r.1)) := by
  have hdv : detect_vendor t = findRule vendorRules t := rfl
  exact ⟨hdv ▸ findRule_eq_find? vendorRules t,
         fun h => hdv ▸ findRule_no_match vendorRules t h,
         hdv ▸ findRule_mem_or vendorRules t⟩

/-- Witness for `detect_vendor_first_match` at concrete inputs: the
text `invoice text` matches no predicate and detects as no vendor. -/
theorem detect_vendor_first_match_witness :
    detect_vendor "invoice text" = "" :=
  (detect_vendor_first_match "invoice text").2.1 (by decide)

/-- C10 counterexample: a document whose first page detects as `itoya`
(a registry key), yet whose parse result is the empty list because the
Itoya scanner finds no item lines — refuting the claim that the
dispatcher returns the empty list exactly when the document has no
pages or detection returns the empty string. -/
theorem dispatch_empty_result_cex :
    detect_vendor (firstPageText [some "ITOYA\nItem Description UOM Ordered"]) = "itoya"
    ∧ ([some "ITOYA\nItem Description UOM Ordered"] : List (Option String)) ≠ []
    ∧ parse_with_custom_scanner registryItoya
        [some "ITOYA\nItem Description UOM Ordered"] true = [] :=
  ⟨by decide, by decide, by decide⟩

/-- C10 amended: every non-empty identifier `detect_vendor` returns is
a key of the registry, so a successful detection dispatches to the
registered parser of that vendor; the dispatcher returns the empty
list when the document has no pages or detection returns the empty
string — but not only then, since the invoked vendor parser may itself
return an empty list. -/
theorem dispatch_amended :
    (∀ (rp : String → List (Option String) → Bool → List LineItem) (inc : Bool),
      parse_with_custom_scanner rp [] inc = [])
    ∧ (∀ rp doc inc, detect_vendor (firstPageText doc) = "" →
        parse_with_custom_scanner rp doc inc = [])
    ∧ (∀ t, detect_vendor t ≠ "" → detect_vendor t ∈ CUSTOM_PARSERS_keys)
    ∧ (∀ rp doc inc, doc ≠ [] → detect_vendor (firstPageText doc) ≠ "" →
        parse_with_custom_scanner rp doc inc
          = rp (detect_vendor (firstPageText doc)) doc inc) := by
  refine ⟨fun rp inc => rfl, ?_, detect_vendor_mem_keys, ?_⟩
  · intro rp doc inc h
    cases doc with
    | nil => rfl
    | cons p rest => simp [parse_with_custom_scanner, h]
  · intro rp doc inc hne hdet
    cases doc with
    | nil => exact absurd rfl hne
    | cons p rest =>
      have hmem := detect_vendor_mem_keys _ hdet
      simp [parse_with_custom_scanner, hdet, hmem]

/-- Witness for `dispatch_amended` at concrete inputs. -/
theorem dispatch_amended_witness :
    parse_with_custom_scanner registryItoya [some "plain text"] true = []
    ∧ detect_vendor "CHARTPAK" ∈ CUSTOM_PARSERS_keys
    ∧ parse_with_custom_scanner registryItoya [some "CHARTPAK"] true
        = registryItoya (detect_vendor (firstPageText [some "CHARTPAK"]))
            [some "CHARTPAK"] true :=
  ⟨dispatch_amended.2.1 registryItoya [some "plain text"] true (by decide),
   dispatch_amended.2.2.1 "CHARTPAK" (by decide),
   dispatch_amended.2.2.2 registryItoya [some "CHARTPAK"] true (by decide) (by decide)⟩

/-- C8: on the single-line Itoya grammar example — the item line
followed by a non-identifier continuation line — the scanner emits
exactly one record with quantity 2 (the shipped column), item number
and SKU `10-9847-620`, unit price 1680.00 and total 3360.00 (thousands
separators stripped). -/
theorem itoya_single_line_example :
    itoyaParse [some "Item Description UOM Ordered Shipped Back Ordered Price Amount\n10-9847-620 KOP - TAMENURI RADEN 'NAMI' LE EACH 2 2 0 1,680.00 3,360.00\n(FOUNTAIN PEN)\nSubtotal 3,360.00"] true
      = [⟨.int 2, none, "10-9847-620", "10-9847-620",
          "KOP - TAMENURI RADEN 'NAMI' LE (FOUNTAIN PEN)",
          some ⟨168000, 2⟩, some ⟨336000, 2⟩⟩]
    ∧ Dec.toRat ⟨168000, 2⟩ = 1680 ∧ Dec.toRat ⟨336000, 2⟩ = 3360 :=
  ⟨by decide, by norm_num [Dec.toRat], by norm_num [Dec.toRat]⟩

/-- C1: on a Chartpak back-order-only line (format 2), the scanner
appends a record with quantity 0 even though the caller passed
`includeZeroQty = false` — the format-2 branch of the source applies
no zero-quantity gate, contradicting the documented contract of the
`include_zero_qty` parameter, which every other branch honours. -/
theorem chartpak_backorder_emits_zero_qty :
    chartpakParse
      [some "SHIPPED UNIT CATALOG\nEA 2 N868-51 A6 5MM GRE 32.000 .550 14.400 .00"]
      false
      = [⟨.int 0, none, "N868-51", "N868-51", "A6 5MM GRE",
          some ⟨14400, 3⟩, some ⟨0, 0⟩⟩] := by decide

/-- C4: for every Exaclair line whose retail price and discount
percentage parse as decimals, the emitted unit price is exactly
`round_half_up(retail * (1 - discount / 100))` to 2 decimal places in
exact decimal arithmetic; in particular retail 35.20 with discount
52.5 yields 16.72, and retail 10.45 with discount 50.00 yields 5.23
(the tie at the second decimal rounds up). -/
theorem exaclair_discount_price :
    (∀ (l : String) (inc : Bool) (g : ExaGroups) (r d : Dec) (it : LineItem),
      exaMatch (stripCh l.data) = some g →
      digitsDotsVal g.priceT = some r → digitsDotsVal g.discT = some d →
      exaclairLineItem l inc = some it →
      ∃ u : Dec, it.unit_price = some u
        ∧ u.toRat = round_half_up (r.toRat * (1 - d.toRat / 100)))
    ∧ exaclairLineItem "5 5 0 XY123 SOME ITEM DESC 35.20 52.5 83.60" true
        = some ⟨.int 5, none, "XY123", "XY123", "SOME ITEM DESC",
                some ⟨1672, 2⟩, some ⟨8360, 2⟩⟩
    ∧ Dec.toRat ⟨1672, 2⟩ = 16.72
    ∧ exaclairLineItem "10 10 0 68145C CLASSIC NBK WB R/MAR 50S 8X11 10.45 50.00 52.25" true
        = some ⟨.int 10, none, "68145C", "68145C", "CLASSIC NBK WB R/MAR 50S 8X11",
                some ⟨523, 2⟩, some ⟨5225, 2⟩⟩
    ∧ Dec.toRat ⟨523, 2⟩ = 5.23 := by
  refine ⟨?_, by decide, by norm_num [Dec.toRat], by decide, by norm_num [Dec.toRat]⟩
  intro l inc g r d it hmatch hr hd hit
  simp only [exaclairLineItem, hmatch] at hit
  split at hit
  · exact absurd hit (by simp)
  · rw [hr, hd] at hit
    cases htot : digitsDotsVal g.totalT with
    | none => rw [htot] at hit; exact absurd hit (by simp)
    | some tot =>
      rw [htot] at hit
      have hrec := Option.some.inj hit
      refine ⟨(r.mul (Dec.sub ⟨1, 0⟩ (d.shr 2))).quantHalfUp2, ?_, ?_⟩
      · rw [← hrec]
      · calc ((r.mul (Dec.sub ⟨1, 0⟩ (d.shr 2))).quantHalfUp2).toRat
            = round_half_up ((r.mul (Dec.sub ⟨1, 0⟩ (d.shr 2))).toRat) :=
              Dec.toRat_quantHalfUp2 _
          _ = round_half_up (r.toRat * (1 - d.toRat / 100)) := by
              rw [Dec.toRat_mul, Dec.toRat_sub, Dec.toRat_one, Dec.toRat_shr]
              norm_num

/-- Witness for `exaclair_discount_price` at the spec's concrete line
(retail 10.45, discount 50.00, unit price 5.23). -/
theorem exaclair_discount_price_witness :
    ∃ u : Dec,
      (⟨.int 10, none, "68145C", "68145C", "CLASSIC NBK WB R/MAR 50S 8X11",
        some ⟨523, 2⟩, some ⟨5225, 2⟩⟩ : LineItem).unit_price = some u
      ∧ u.toRat = round_half_up (Dec.toRat ⟨1045, 2⟩ * (1 - Dec.toRat ⟨5000, 2⟩ / 100)) := by
  refine exaclair_discount_price.1
    "10 10 0 68145C CLASSIC NBK WB R/MAR 50S 8X11 10.45 50.00 52.25" true
    ⟨"10".data, "68145C".data, "CLASSIC NBK WB R/MAR 50S 8X11".data,
      "10.45".data, "50.00".data, "52.25".data⟩
    ⟨1045, 2⟩ ⟨5000, 2⟩
    ⟨.int 10, none, "68145C", "68145C", "CLASSIC NBK WB R/MAR 50S 8X11",
      some ⟨523, 2⟩, some ⟨5225, 2⟩⟩ ?_ ?_ ?_ ?_ <;> decide

/-! ### Record-shape facts about the generic parser and the scanners -/

theorem pyTruthyO_getD (o : Option String) (h : pyTruthyO o = true) :
    o.getD "" ≠ "" := by
  cases o with
  | none => simp [pyTruthyO] at h
  | some s => simpa [pyTruthyO] using h

/-- A record emitted by `parse_line_item_row` has an `int` quantity and
non-empty identifier, SKU and description. -/
theorem parse_line_item_row_some (row headers : Row) (inc : Bool) (it : LineItem)
    (h : parse_line_item_row row headers inc = some it) :
    (∃ z : Int, it.quantity = .int z)
    ∧ it.item_number ≠ "" ∧ it.sku ≠ "" ∧ it.product_description ≠ "" := by
  unfold parse_line_item_row at h
  dsimp only at h
  split at h
  · exact absurd h (by simp)
  · cases hq : extract_quantity (rowEntries headers row) with
    | none => rw [hq] at h; exact absurd h (by simp)
    | some qty =>
      rw [hq] at h
      dsimp only at h
      split at h
      · exact absurd h (by simp)
      · rcases hpr : substIds
            ((extractFieldGo (rowEntries headers row)
              ["item#", "item #", "item", "item_number", "itemnumber",
               "item no", "item no."]).map extract_first_item_number)
            (extractFieldGo (rowEntries headers row)
              ["sku", "item_code", "item code"])
          with ⟨a, b⟩
        rw [hpr] at h
        split at h
        · rename_i hc
          obtain rfl := Option.some.inj h
          exact ⟨⟨qty, rfl⟩, pyTruthyO_getD _ hc.1, pyTruthyO_getD _ hc.2.1,
            pyTruthyO_getD _ hc.2.2⟩
        · exact Option.noConfusion h

/-- A record emitted by the positional continuation parse has an `int`
quantity and non-empty identifier, SKU and description. -/
theorem contParse_some (trimmed : Row) (inc : Bool) (it : LineItem)
    (h : contParse trimmed inc = some it) :
    (∃ z : Int, it.quantity = .int z)
    ∧ it.item_number ≠ "" ∧ it.sku ≠ "" ∧ it.product_description ≠ "" := by
  unfold contParse at h
  cases hq0 : trimmed.getD 0 none with
  | none => rw [hq0] at h; exact absurd h (by simp)
  | some qs =>
    rw [hq0] at h
    dsimp only at h
    split at h
    · cases hf : pyFloat (pstrip qs) with
      | none => rw [hf] at h; exact absurd h (by simp)
      | some d =>
        rw [hf] at h
        dsimp only at h
        split at h
        · exact absurd h (by simp)
        · repeat split at h
          all_goals first
            | exact Option.noConfusion h
            | (obtain rfl := Option.some.inj h
               refine ⟨⟨_, rfl⟩, ?_, ?_, ?_⟩ <;>
                 (dsimp only; apply pyTruthyO_getD; simp_all))
    · exact absurd h (by simp)

/-- A record emitted by `parse_continuation_row` likewise. -/
theorem parse_continuation_row_some (row header : Row) (inc : Bool) (it : LineItem)
    (h : parse_continuation_row row header inc = some it) :
    (∃ z : Int, it.quantity = .int z)
    ∧ it.item_number ≠ "" ∧ it.sku ≠ "" ∧ it.product_description ≠ "" := by
  unfold parse_continuation_row at h
  split at h
  · exact absurd h (by simp)
  · split at h
    · exact parse_line_item_row_some _ _ _ _ h
    · dsimp only at h
      split at h
      · exact contParse_some _ _ _ h
      · exact absurd h (by simp)

/-! ### Quantity shape of the Avanti scanner -/

theorem decTok_nonneg (t : List Char) (d : Dec) (h : decTok t = some d) :
    0 ≤ d.m := by
  unfold decTok at h
  dsimp only at h
  split at h
  · split at h
    · obtain rfl := Option.some.inj h
      exact Int.natCast_nonneg _
    · exact Option.noConfusion h
  · exact Option.noConfusion h

theorem avantiMatch_qty_nonneg (cs : List Char)
    (g : List Char × List Char × List Char × Dec × Dec × Dec)
    (h : avantiMatch cs = some g) : 0 ≤ g.2.2.2.2.1.m := by
  unfold avantiMatch at h
  dsimp only at h
  repeat split at h
  all_goals first
    | exact Option.noConfusion h
    | (rename_i hq2 _ _ _ _
       obtain rfl := Option.some.inj h
       exact decTok_nonneg _ _ hq2)

/-- A record emitted by the Avanti per-line step carries either a
non-negative `int` quantity or a non-negative non-integral `float`
quantity. -/
theorem avantiLine_quantity (l : String) (inc : Bool) (it : LineItem)
    (h : avantiLine l inc = some it) :
    (∃ z : Int, 0 ≤ z ∧ it.quantity = .int z) ∨
      (∃ d : Dec, 0 ≤ d.m ∧ d.isIntegral = false ∧ it.quantity = .float d) := by
  unfold avantiLine at h
  cases hm : avantiMatch (stripCh l.data) with
  | none => rw [hm] at h; exact Option.noConfusion h
  | some g =>
    rw [hm] at h
    have hnn : 0 ≤ g.2.2.2.2.1.m := avantiMatch_qty_nonneg _ _ hm
    obtain ⟨ds, prod, desc, d1, d2, d3⟩ := g
    dsimp only at h hnn
    split at h
    · exact Option.noConfusion h
    · obtain rfl := Option.some.inj h
      by_cases hi : d2.isIntegral = true
      · refine Or.inl ⟨d2.trunc, Int.tdiv_nonneg hnn (by positivity), ?_⟩
        dsimp only
        rw [if_pos hi]
      · refine Or.inr ⟨d2, hnn, by simpa using hi, ?_⟩
        dsimp only
        rw [if_neg hi]

/-- Every record of the Avanti scanner comes from some line. -/
theorem avantiParse_mem (doc : List (Option String)) (inc : Bool) (it : LineItem)
    (h : it ∈ avantiParse doc inc) : ∃ l, avantiLine l inc = some it := by
  unfold avantiParse at h
  simp only [List.mem_flatten, List.mem_map] at h
  obtain ⟨_, ⟨page, hpage, rfl⟩, hmem⟩ := h
  cases page with
  | none => simp at hmem
  | some t =>
    dsimp only at hmem
    split at hmem
    · obtain ⟨l, _, hl⟩ := List.mem_filterMap.mp hmem
      exact ⟨l, hl⟩
    · simp at hmem

/-- C2, counterexample: quantities emitted by the program are not always
non-negative integers.  The Avanti scanner parses the decimal-number
shipped field `2.5` and stores the non-integral float itself, and the
generic parser accepts the cell text `-3` and stores the negative
integer `-3`. -/
theorem quantity_nonneg_int_cex :
    (avantiParse [some "#1 NB2014 QUILLED BIRTHDAY QUEEN 7.475 2.5 18.69"] false
       = [⟨.float ⟨25, 1⟩, none, "NB2014", "NB2014", "QUILLED BIRTHDAY QUEEN",
           some ⟨7475, 3⟩, some ⟨1869, 2⟩⟩]
     ∧ ∀ z : Int, PyNum.float ⟨25, 1⟩ ≠ .int z)
    ∧ parse_line_item_row [some "-3", some "A", some "B", some "C"]
        [some "Qty", some "Item", some "SKU", some "Description"] false
        = some ⟨.int (-3), none, "A", "B", "C", none, none⟩
    ∧ (-3 : ℤ) < 0 := by
  refine ⟨⟨by decide, fun z hz => PyNum.noConfusion hz⟩, by decide, by decide⟩

/-- C2, amended: every record of the generic parser carries an integer
quantity (possibly negative, since `int(float(...))` accepts signed
text); every record of the Avanti scanner carries a non-negative
quantity, stored as an integer exactly when the parsed shipped value is
integral and as the non-integral float otherwise. -/
theorem quantity_int_amended :
    (∀ row headers inc it, parse_line_item_row row headers inc = some it →
        ∃ z : Int, it.quantity = .int z)
    ∧ ∀ doc inc it, it ∈ avantiParse doc inc →
        (∃ z : Int, 0 ≤ z ∧ it.quantity = .int z) ∨
          (∃ d : Dec, 0 ≤ d.m ∧ d.isIntegral = false ∧ it.quantity = .float d) := by
  constructor
  · exact fun row headers inc it h => (parse_line_item_row_some row headers inc it h).1
  · intro doc inc it h
    obtain ⟨l, hl⟩ := avantiParse_mem doc inc it h
    exact avantiLine_quantity l inc it hl

/-- C2, witness: the amended statement applied to a concrete generic
row and a concrete Avanti page. -/
theorem quantity_int_amended_witness :
    (∃ z : Int,
      (⟨.int (-3), none, "A", "B", "C", none, none⟩ : LineItem).quantity = .int z)
    ∧ ((∃ z : Int, 0 ≤ z ∧
          (⟨.float ⟨25, 1⟩, none, "NB2014", "NB2014", "QUILLED BIRTHDAY QUEEN",
            some ⟨7475, 3⟩, some ⟨1869, 2⟩⟩ : LineItem).quantity = .int z) ∨
        (∃ d : Dec, 0 ≤ d.m ∧ d.isIntegral = false ∧
          (⟨.float ⟨25, 1⟩, none, "NB2014", "NB2014", "QUILLED BIRTHDAY QUEEN",
            some ⟨7475, 3⟩, some ⟨1869, 2⟩⟩ : LineItem).quantity = .float d)) :=
  ⟨quantity_int_amended.1 [some "-3", some "A", some "B", some "C"]
      [some "Qty", some "Item", some "SKU", some "Description"] false _ (by decide),
   quantity_int_amended.2
      [some "#1 NB2014 QUILLED BIRTHDAY QUEEN 7.475 2.5 18.69"] false _ (by decide)⟩

/-! ### Identifier shape of the Montblanc scanner -/

theorem strMk_ne_empty (cs : List Char) (h : cs ≠ []) : (⟨cs⟩ : String) ≠ "" :=
  fun he => h (congrArg String.data he)

theorem digits5_ne_nil (t : List Char) (h : digits5 t = true) : t ≠ [] := by
  intro hn; subst hn; simp [digits5] at h

theorem mbMatchA_code (cs code desc q : List Char) (u t : Dec)
    (h : mbMatchA cs = some (code, desc, q, u, t)) : code ≠ [] := by
  unfold mbMatchA at h
  dsimp only at h
  repeat split at h
  all_goals first
    | exact Option.noConfusion h
    | (have h2 := Option.some.inj h
       simp only [Prod.mk.injEq] at h2
       obtain ⟨rfl, -⟩ := h2
       exact digits5_ne_nil _ (by simp_all))

theorem mbMatchB_code (cs code q : List Char) (u t : Dec)
    (h : mbMatchB cs = some (code, q, u, t)) : code ≠ [] := by
  unfold mbMatchB at h
  repeat split at h
  all_goals first
    | exact Option.noConfusion h
    | (have h2 := Option.some.inj h
       simp only [Prod.mk.injEq] at h2
       obtain ⟨rfl, -⟩ := h2
       exact digits5_ne_nil _ (by simp_all))

/-- Every record of the Montblanc line loop has a non-empty article
number, copied into both identifier fields. -/
theorem mbGo_mem_ids (inc : Bool) (fuel : Nat) :
    ∀ b ls it, it ∈ mbGo inc fuel b ls →
      it.item_number ≠ "" ∧ it.sku ≠ "" := by
  induction fuel with
  | zero => intro b ls it h; simp [mbGo] at h
  | succ n ih =>
    intro b ls it h
    cases ls with
    | nil => simp [mbGo] at h
    | cons l rest =>
      simp only [mbGo] at h
      repeat' split at h
      all_goals first
        | exact ih _ _ _ h
        | (rcases List.mem_cons.mp h with rfl | h1
           · exact ⟨strMk_ne_empty _ (mbMatchA_code _ _ _ _ _ _ (by assumption)),
               strMk_ne_empty _ (mbMatchA_code _ _ _ _ _ _ (by assumption))⟩
           · exact ih _ _ _ h1)
        | (rcases List.mem_cons.mp h with rfl | h1
           · exact ⟨strMk_ne_empty _ (mbMatchB_code _ _ _ _ _ (by assumption)),
               strMk_ne_empty _ (mbMatchB_code _ _ _ _ _ (by assumption))⟩
           · exact ih _ _ _ h1)

/-- Every record of the Montblanc scanner has non-empty identifier
fields. -/
theorem montblancParse_ids (doc : List (Option String)) (inc : Bool) (it : LineItem)
    (h : it ∈ montblancParse doc inc) : it.item_number ≠ "" ∧ it.sku ≠ "" := by
  unfold montblancParse at h
  simp only [List.mem_flatten, List.mem_map] at h
  obtain ⟨_, ⟨page, hpage, rfl⟩, hmem⟩ := h
  cases page with
  | none => simp at hmem
  | some t =>
    dsimp only at hmem
    split at hmem
    · exact mbGo_mem_ids _ _ _ _ _ hmem
    · simp at hmem

/-- C3, counterexample: the Montblanc format-B branch can emit a record
whose description is the empty string while the record carries genuine
non-zero prices, so the emission invariant does not hold for it and the
no-pricing exception does not excuse it. -/
theorem emission_nonempty_cex :
    montblancParse
        [some "Article Description QTY\n12345 2 PC 1.00 2.00 3.00\nSUBTOTAL"] true
      = [⟨.int 2, none, "12345", "12345", "", some ⟨200, 2⟩, some ⟨300, 2⟩⟩]
    ∧ (⟨.int 2, none, "12345", "12345", "", some ⟨200, 2⟩,
        some ⟨300, 2⟩⟩ : LineItem).product_description = ""
    ∧ (⟨200, 2⟩ : Dec).toRat ≠ 0 := by
  refine ⟨by decide, rfl, by norm_num [Dec.toRat]⟩

/-- C3, amended: the generic parser (both its header-driven row parse
and its positional continuation parse) emits a record only when the
identifier, SKU and description are all non-empty; the Montblanc
scanner guarantees non-empty identifier and SKU, but its format-B
branch may emit an empty description. -/
theorem emission_nonempty_amended :
    (∀ row headers inc it, parse_line_item_row row headers inc = some it →
        it.item_number ≠ "" ∧ it.sku ≠ "" ∧ it.product_description ≠ "")
    ∧ (∀ row header inc it, parse_continuation_row row header inc = some it →
        it.item_number ≠ "" ∧ it.sku ≠ "" ∧ it.product_description ≠ "")
    ∧ ∀ doc inc it, it ∈ montblancParse doc inc →
        it.item_number ≠ "" ∧ it.sku ≠ "" :=
  ⟨fun row headers inc it h => (parse_line_item_row_some row headers inc it h).2,
   fun row header inc it h => (parse_continuation_row_some row header inc it h).2,
   fun doc inc it h => montblancParse_ids doc inc it h⟩

/-- C3, witness: the amended statement applied to a concrete generic
row and a concrete Montblanc page. -/
theorem emission_nonempty_amended_witness :
    ((⟨.int (-3), none, "A", "B", "C", none, none⟩ : LineItem).item_number ≠ ""
      ∧ (⟨.int (-3), none, "A", "B", "C", none, none⟩ : LineItem).sku ≠ ""
      ∧ (⟨.int (-3), none, "A", "B", "C", none,
          none⟩ : LineItem).product_description ≠ "")
    ∧ ((⟨.int 2, none, "12345", "12345", "", some ⟨200, 2⟩,
          some ⟨300, 2⟩⟩ : LineItem).item_number ≠ ""
      ∧ (⟨.int 2, none, "12345", "12345", "", some ⟨200, 2⟩,
          some ⟨300, 2⟩⟩ : LineItem).sku ≠ "") :=
  ⟨emission_nonempty_amended.1 [some "-3", some "A", some "B", some "C"]
      [some "Qty", some "Item", some "SKU", some "Description"] true _ (by decide),
   emission_nonempty_amended.2.2
      [some "Article Description QTY\n12345 2 PC 1.00 2.00 3.00\nSUBTOTAL"] true _
      (by decide)⟩

/-! ### Characterization of header detection -/

theorem is_line_items_table_iff (r : Row) :
    is_line_items_table r = true ↔
      r ≠ [] ∧ 3 ≤ indicatorMatches codeIndicators (lowHeaders r) := by
  unfold is_line_items_table
  split
  · obtain rfl := List.isEmpty_iff.mp (by assumption)
    simp
  · rename_i he
    simp only [List.isEmpty_iff] at he
    simp [he]

theorem findHeaderAux_some (rs : List Row) : ∀ i0 i r,
    findHeaderAux i0 rs = some (i, r) ↔
      ∃ k, i = i0 + k ∧ rs[k]? = some r ∧ is_line_items_table r = true ∧
        ∀ j rj, j < k → rs[j]? = some rj →
          is_line_items_table rj = false := by
  induction rs with
  | nil => intro i0 i r; simp [findHeaderAux]
  | cons hd tl ih =>
    intro i0 i r
    unfold findHeaderAux
    split
    · rename_i hh
      constructor
      · intro h
        have h2 := Option.some.inj h
        simp only [Prod.mk.injEq] at h2
        obtain ⟨rfl, rfl⟩ := h2
        exact ⟨0, by omega, by simp, hh, fun j rj hj => absurd hj (by omega)⟩
      · rintro ⟨k, rfl, hget, hr, hmin⟩
        cases k with
        | zero =>
          simp only [List.getElem?_cons_zero, Option.some.injEq] at hget
          subst hget
          simp
        | succ k1 =>
          exact absurd hh (by simpa using hmin 0 hd (by omega) (by simp))
    · rename_i hn
      rw [ih]
      constructor
      · rintro ⟨k, rfl, hget, hr, hmin⟩
        refine ⟨k + 1, by omega, by simpa using hget, hr, ?_⟩
        intro j rj hj hg
        cases j with
        | zero =>
          simp only [List.getElem?_cons_zero, Option.some.injEq] at hg
          subst hg
          simpa using hn
        | succ j1 => exact hmin j1 rj (by omega) (by simpa using hg)
      · rintro ⟨k, rfl, hget, hr, hmin⟩
        cases k with
        | zero =>
          simp only [List.getElem?_cons_zero, Option.some.injEq] at hget
          subst hget
          exact absurd hr (by simpa using hn)
        | succ k1 =>
          refine ⟨k1, by omega, by simpa using hget, hr, ?_⟩
          intro j rj hj hg
          exact hmin (j + 1) rj (by omega) (by simpa using hg)

theorem findHeader_some (t : Table) (i : Nat) (r : Row) :
    findHeader t = some (i, r) ↔
      i < 5 ∧ t[i]? = some r ∧ is_line_items_table r = true ∧
        ∀ j rj, j < i → t[j]? = some rj →
          is_line_items_table rj = false := by
  unfold findHeader
  rw [findHeaderAux_some]
  constructor
  · rintro ⟨k, rfl, hget, hr, hmin⟩
    have hk5 : k < 5 := by
      have hlen := (List.getElem?_eq_some_iff.mp hget).1
      have h5 : (t.take 5).length ≤ 5 := by
        simp
      omega
    rw [List.getElem?_take] at hget
    rw [if_pos hk5] at hget
    refine ⟨by omega, by simpa using hget, hr, ?_⟩
    intro j rj hj hg
    refine hmin j rj (by omega) ?_
    rw [List.getElem?_take, if_pos (show j < 5 by omega)]
    exact hg
  · rintro ⟨hi, hget, hr, hmin⟩
    refine ⟨i, by omega, ?_, hr, ?_⟩
    · rw [List.getElem?_take, if_pos hi]
      exact hget
    · intro j rj hj hg
      rw [List.getElem?_take, if_pos (show j < 5 by omega)] at hg
      exact hmin j rj hj hg

/-- C6, counterexample: the code's indicator list also contains `qty`,
which the specification's indicator set does not; the row
`Qty | Item | SKU` matches only 2 of the specification's terms, yet it
is selected as a header row. -/
theorem header_indicator_cex :
    findHeader [[some "Qty", some "Item", some "SKU"]]
      = some (0, [some "Qty", some "Item", some "SKU"])
    ∧ indicatorMatches specIndicators
        (lowHeaders [some "Qty", some "Item", some "SKU"]) = 2 :=
  ⟨by decide, by decide⟩

/-- C6, amended: a row is recognized exactly when it is non-empty and
at least 3 of the code's 8 indicator terms (`qty` included) occur in
its lowercased cells; the selected header is the earliest recognized
row among the first 5; and the claim's example header row is
recognized. -/
theorem header_detection_amended :
    (∀ r, is_line_items_table r = true ↔
        r ≠ [] ∧ 3 ≤ indicatorMatches codeIndicators (lowHeaders r))
    ∧ (∀ t i r, findHeader t = some (i, r) ↔
        i < 5 ∧ t[i]? = some r ∧ is_line_items_table r = true ∧
          ∀ j rj, j < i → t[j]? = some rj → is_line_items_table rj = false)
    ∧ findHeader [[some "Qty", some "Item#", some "SKU", some "Description",
        some "Price", some "Amount"]]
      = some (0, [some "Qty", some "Item#", some "SKU", some "Description",
          some "Price", some "Amount"]) :=
  ⟨is_line_items_table_iff, findHeader_some, by decide⟩

/-! ### The continuation-row trim equals the leading/trailing trim -/

theorem dropWhile_eq_drop_tw {α : Type} (p : α → Bool) (l : List α) :
    l.dropWhile p = l.drop (l.takeWhile p).length := by
  induction l with
  | nil => rfl
  | cons a l ih =>
    by_cases h : p a
    · simp [List.dropWhile_cons, List.takeWhile_cons, h, ih]
    · simp [List.dropWhile_cons, List.takeWhile_cons, h]

theorem takeWhile_append_left {α : Type} (p : α → Bool) (A B : List α)
    (h : (A.takeWhile p).length < A.length) :
    (A ++ B).takeWhile p = A.takeWhile p := by
  induction A with
  | nil => simp at h
  | cons a A ih =>
    by_cases hp : p a
    · simp only [List.takeWhile_cons, hp, if_true, List.length_cons,
        List.cons_append] at h ⊢
      rw [ih (by omega)]
    · simp [List.takeWhile_cons, hp]

theorem tw_lt_of_any {α : Type} (q : α → Bool) (l : List α)
    (h : l.any q = true) :
    (l.takeWhile (fun x => !q x)).length < l.length := by
  induction l with
  | nil => simp at h
  | cons a l ih =>
    by_cases hq : q a
    · simp [List.takeWhile_cons, hq]
    · simp only [List.any_cons, hq, Bool.false_or] at h
      simp only [List.takeWhile_cons, hq, Bool.not_false, if_true,
        List.length_cons]
      exact Nat.succ_lt_succ (ih h)

theorem firstTruthyIdx_eq (row : Row) (h : row.any cellNonEmptyStrip = true) :
    ∀ i0, firstTruthyIdx i0 row
      = some (i0 + (row.takeWhile (fun c => !cellNonEmptyStrip c)).length) := by
  induction row with
  | nil => simp at h
  | cons c cs ih =>
    intro i0
    by_cases hc : cellNonEmptyStrip c = true
    · simp [firstTruthyIdx, hc, List.takeWhile_cons]
    · simp only [List.any_cons, Bool.false_or,
        (by simpa using hc : cellNonEmptyStrip c = false)] at h
      simp only [firstTruthyIdx, hc, if_false, List.takeWhile_cons,
        (by simpa using hc : cellNonEmptyStrip c = false), Bool.not_false,
        if_true, List.length_cons, ih h]
      exact congrArg some (by omega)

theorem firstTruthyIdx_none (row : Row) (h : row.any cellNonEmptyStrip = false) :
    ∀ i0, firstTruthyIdx i0 row = none := by
  induction row with
  | nil => intro i0; rfl
  | cons c cs ih =>
    intro i0
    simp only [List.any_cons, Bool.or_eq_false_iff] at h
    simp [firstTruthyIdx, h.1, ih h.2]

theorem codeTrim_eq_specTrim (row : Row)
    (h : row.any cellNonEmptyStrip = true) : codeTrim row = specTrim row := by
  have hs := firstTruthyIdx_eq row h 0
  have hrev : row.reverse.any cellNonEmptyStrip = true := by
    simpa using h
  have hsr := firstTruthyIdx_eq row.reverse hrev 0
  have hsrlt : (row.reverse.takeWhile (fun c => !cellNonEmptyStrip c)).length
      < row.length := by
    simpa using tw_lt_of_any cellNonEmptyStrip row.reverse hrev
  unfold codeTrim lastTruthyIdx
  rw [hs, hsr]
  simp only [Option.map_some', Option.getD_some, Nat.zero_add]
  unfold specTrim
  rw [dropWhile_eq_drop_tw]
  rw [dropWhile_eq_drop_tw]
  rw [List.reverse_drop, List.reverse_reverse]
  have hD : (row.drop (row.takeWhile (fun c => !cellNonEmptyStrip c)).length).any
      cellNonEmptyStrip = true := by
    rcases List.any_eq_true.mp h with ⟨c, hc, hq⟩
    have hsplit := List.takeWhile_append_dropWhile
      (p := fun c => !cellNonEmptyStrip c) (l := row)
    rcases List.mem_append.mp (by rw [hsplit]; exact hc) with hmem | hmem
    · exact absurd hq (by
        have := List.mem_takeWhile_imp hmem
        simp at this
        simp [this])
    · rw [← dropWhile_eq_drop_tw]
      exact List.any_eq_true.mpr ⟨c, hmem, hq⟩
  have hlt : (((row.drop
        (row.takeWhile (fun c => !cellNonEmptyStrip c)).length).reverse.takeWhile
          (fun c => !cellNonEmptyStrip c)).length)
      < (row.drop (row.takeWhile (fun c => !cellNonEmptyStrip c)).length).reverse.length := by
    exact tw_lt_of_any cellNonEmptyStrip _ (by simpa using hD)
  have hkey : ((row.drop
        (row.takeWhile (fun c => !cellNonEmptyStrip c)).length).reverse.takeWhile
          (fun c => !cellNonEmptyStrip c)).length
      = (row.reverse.takeWhile (fun c => !cellNonEmptyStrip c)).length := by
    have hrw : row.reverse
        = (row.drop (row.takeWhile (fun c => !cellNonEmptyStrip c)).length).reverse
          ++ (row.take (row.takeWhile (fun c => !cellNonEmptyStrip c)).length).reverse := by
      rw [← List.reverse_append, List.take_append_drop]
    rw [hrw, takeWhile_append_left _ _ _ hlt]
  rw [← hkey]
  have hlt2 : ((row.drop
        (row.takeWhile (fun c => !cellNonEmptyStrip c)).length).reverse.takeWhile
          (fun c => !cellNonEmptyStrip c)).length
      < row.length - (row.takeWhile (fun c => !cellNonEmptyStrip c)).length := by
    simpa using hlt
  congr 1
  simp only [List.length_reverse, List.length_drop]
  omega

theorem contParse_untruthy_head (r : Row) (inc : Bool)
    (h : cellNonEmptyStrip (r.getD 0 none) = false) : contParse r inc = none := by
  unfold contParse
  cases hq0 : r.getD 0 none with
  | none => rfl
  | some qs =>
    rw [hq0] at h
    dsimp only
    by_cases hqs : qs = ""
    · rw [if_neg (by simp [hqs])]
    · have hps : pstrip qs = "" := by
        simp only [cellNonEmptyStrip, Bool.and_eq_false_iff,
          decide_eq_false_iff_not, not_not] at h
        rcases h with h1 | h2
        · exact absurd h1 hqs
        · exact h2
      rw [if_pos hqs, hps]
      have hpf : pyFloat "" = none := by decide
      rw [hpf]

theorem parse_continuation_row_trim (row header : Row) (inc : Bool)
    (h0 : row.isEmpty = false) (hlen : row.length ≠ header.length) :
    parse_continuation_row row header inc
      = if 5 ≤ (specTrim row).length then contParse (specTrim row) inc
        else none := by
  unfold parse_continuation_row
  rw [if_neg (by simp [h0]), if_neg hlen]
  by_cases hany : row.any cellNonEmptyStrip = true
  · rw [codeTrim_eq_specTrim row hany]
  · have hanyf : row.any cellNonEmptyStrip = false := by
      simpa using hany
    have hf : firstTruthyIdx 0 row = none := firstTruthyIdx_none row hanyf 0
    have hfr : firstTruthyIdx 0 row.reverse = none :=
      firstTruthyIdx_none row.reverse (by simpa using hanyf) 0
    have hct : codeTrim row = row := by
      unfold codeTrim lastTruthyIdx
      rw [hf, hfr]
      simp
    have hst : specTrim row = [] := by
      unfold specTrim
      have hdw : row.dropWhile (fun c => !cellNonEmptyStrip c) = [] := by
        rw [List.dropWhile_eq_nil_iff]
        intro x hx
        simp only [List.any_eq_false] at hanyf
        simp [hanyf x hx]
      simp [hdw]
    have hhead : cellNonEmptyStrip (row.getD 0 none) = false := by
      cases row with
      | nil => simp at h0
      | cons c cs =>
        simp only [List.any_eq_false] at hanyf
        simpa using hanyf c (by simp)
    rw [hct, hst]
    split
    · rename_i hc
      exact absurd hc (by simp)
    · dsimp only
      split
      · rw [contParse_untruthy_head row inc hhead]
      · rfl

theorem extractGo_append (inc : Bool) (ts1 : List Table) :
    ∀ (last : Option Row) (ts2 : List Table),
      extractGo inc last (ts1 ++ ts2)
        = extractGo inc last ts1 ++ extractGo inc (lastHeaderGo last ts1) ts2 := by
  induction ts1 with
  | nil => intro last ts2; simp [extractGo, lastHeaderGo]
  | cons t ts ih =>
    intro last ts2
    simp only [List.cons_append, extractGo, lastHeaderGo, List.append_eq]
    split
    · exact ih last ts2
    · split
      · rw [ih _ ts2, List.append_assoc]
      · split
        · rw [ih _ ts2, List.append_assoc]
        · exact ih _ ts2

/-- C7: a headerless table is parsed as continuation rows against the
most recently seen header of the document; a continuation row whose
cell count differs from the header's is trimmed of leading and
trailing fully-empty cells and parsed positionally only when at least
5 cells survive (fewer yield no record); and a concrete 8-cell row
against a 2-cell header maps the surviving cells positionally as
quantity, item number, SKU, description, price, amount. -/
theorem continuation_table_spec :
    (∀ inc ts t h, t.isEmpty = false → findHeader t = none →
        lastHeaderOf ts = some h →
        extract_table_based (ts ++ [t]) inc
          = extract_table_based ts inc
            ++ t.filterMap (fun r =>
                if rowAnyTruthy r then parse_continuation_row r h inc
                else none))
    ∧ (∀ row header inc, row.isEmpty = false →
        row.length ≠ header.length →
        parse_continuation_row row header inc
          = if 5 ≤ (specTrim row).length then contParse (specTrim row) inc
            else none)
    ∧ parse_continuation_row
        [none, some "3", some "AB", some "CD", some "Widget", some "1.50",
         some "4.50", some " "]
        [some "a", some "b"] true
      = some ⟨.int 3, none, "AB", "CD", "Widget", some ⟨150, 2⟩,
          some ⟨450, 2⟩⟩ := by
  refine ⟨?_, parse_continuation_row_trim, by decide⟩
  intro inc ts t h ht hfh hlast
  unfold extract_table_based
  rw [extractGo_append]
  congr 1
  show extractGo inc (lastHeaderGo none ts) [t] = _
  rw [show lastHeaderGo none ts = some h from hlast]
  simp only [extractGo]
  rw [if_neg (by simp [ht]), hfh]
  dsimp only
  simp [extractGo]

/-- C7, witness: the statement applied to a concrete two-table document
and to the concrete 8-cell continuation row. -/
theorem continuation_table_spec_witness :
    (extract_table_based
        ([[[some "Qty", some "Item", some "SKU", some "Description",
            some "Price", some "Amount"]]]
          ++ [[[some "2", some "XX", some "YY", some "Wdg", some "3.00",
                some "6.00"]]]) false
      = extract_table_based
          [[[some "Qty", some "Item", some "SKU", some "Description",
             some "Price", some "Amount"]]] false
        ++ [[some "2", some "XX", some "YY", some "Wdg", some "3.00",
             some "6.00"]].filterMap (fun r =>
            if rowAnyTruthy r then
              parse_continuation_row r
                [some "Qty", some "Item", some "SKU", some "Description",
                 some "Price", some "Amount"] false
            else none))
    ∧ parse_continuation_row
        [none, some "3", some "AB", some "CD", some "Widget", some "1.50",
         some "4.50", some " "]
        [some "a", some "b"] true
      = if 5 ≤ (specTrim [none, some "3", some "AB", some "CD", some "Widget",
            some "1.50", some "4.50", some " "]).length then
          contParse (specTrim [none, some "3", some "AB", some "CD",
            some "Widget", some "1.50", some "4.50", some " "]) true
        else none :=
  ⟨continuation_table_spec.1 false
      [[[some "Qty", some "Item", some "SKU", some "Description",
         some "Price", some "Amount"]]]
      [[some "2", some "XX", some "YY", some "Wdg", some "3.00", some "6.00"]]
      [some "Qty", some "Item", some "SKU", some "Description",
       some "Price", some "Amount"]
      (by decide) (by decide) (by decide),
   continuation_table_spec.2.1
      [none, some "3", some "AB", some "CD", some "Widget", some "1.50",
       some "4.50", some " "]
      [some "a", some "b"] true (by decide) (by decide)⟩

/-! ### The Kenro letter-spacing detection and repair -/

theorem hasSpacedRunCh_iff (cs : List Char) :
    hasSpacedRunCh cs = true ↔
      ∃ pre w1 s1 w2 s2 w3 s3 suf,
        cs = pre ++ w1 :: s1 :: w2 :: s2 :: w3 :: s3 :: suf
        ∧ isWordCh w1 = true ∧ isWsCh s1 = true ∧ isWordCh w2 = true
        ∧ isWsCh s2 = true ∧ isWordCh w3 = true ∧ isWsCh s3 = true := by
  induction cs with
  | nil =>
    simp only [hasSpacedRunCh]
    constructor
    · intro h; exact absurd h (by simp)
    · rintro ⟨pre, w1, s1, w2, s2, w3, s3, suf, heq, -⟩
      exact absurd (congrArg List.length heq) (by simp; omega)
  | cons c1 tl ih =>
    rcases tl with - | ⟨c2, - | ⟨c3, - | ⟨c4, - | ⟨c5, - | ⟨c6, rest⟩⟩⟩⟩⟩
    all_goals try
      (simp only [hasSpacedRunCh]
       constructor
       · intro h; exact absurd h (by simp)
       · rintro ⟨pre, w1, s1, w2, s2, w3, s3, suf, heq, -⟩
         exact absurd (congrArg List.length heq) (by simp; omega))
    constructor
    · intro h
      simp only [hasSpacedRunCh, Bool.or_eq_true, Bool.and_eq_true] at h
      rcases h with hb | ht
      · obtain ⟨⟨⟨⟨⟨h1, h2⟩, h3⟩, h4⟩, h5⟩, h6⟩ := hb
        exact ⟨[], c1, c2, c3, c4, c5, c6, rest, by simp, h1, h2, h3, h4, h5, h6⟩
      · obtain ⟨pre, w1, s1, w2, s2, w3, s3, suf, heq, hw⟩ := ih.mp ht
        exact ⟨c1 :: pre, w1, s1, w2, s2, w3, s3, suf,
          by rw [List.cons_append, ← heq], hw⟩
    · rintro ⟨pre, w1, s1, w2, s2, w3, s3, suf, heq, hw1, hs1, hw2, hs2, hw3, hs3⟩
      cases pre with
      | nil =>
        simp only [List.nil_append, List.cons.injEq] at heq
        obtain ⟨rfl, rfl, rfl, rfl, rfl, rfl, rfl⟩ := heq
        simp [hasSpacedRunCh, hw1, hs1, hw2, hs2, hw3, hs3]
      | cons p pre1 =>
        simp only [List.cons_append, List.cons.injEq] at heq
        obtain ⟨rfl, heq2⟩ := heq
        have ht : hasSpacedRunCh (c2 :: c3 :: c4 :: c5 :: c6 :: rest) = true :=
          ih.mpr ⟨pre1, w1, s1, w2, s2, w3, s3, suf, heq2,
            hw1, hs1, hw2, hs2, hw3, hs3⟩
        simp [hasSpacedRunCh, ht]

/-- C9: the Kenro letter-spacing detector fires exactly when three
consecutive word-character-plus-whitespace pairs occur somewhere in the
text; the repair removes all whitespace and reinserts spaces at
lowercase-to-uppercase boundaries and around slashes; in particular
`"E s t e r b r o o k"` is detected and normalizes to `"Esterbrook"`,
also through the full Kenro row pipeline. -/
theorem kenro_letterspace_repair :
    (∀ cs : List Char, hasSpacedRunCh cs = true ↔
      ∃ pre w1 s1 w2 s2 w3 s3 suf,
        cs = pre ++ w1 :: s1 :: w2 :: s2 :: w3 :: s3 :: suf
        ∧ isWordCh w1 = true ∧ isWsCh s1 = true ∧ isWordCh w2 = true
        ∧ isWsCh s2 = true ∧ isWordCh w3 = true ∧ isWsCh s3 = true)
    ∧ hasSpacedRunCh "E s t e r b r o o k".data = true
    ∧ despace_and_format_desc "E s t e r b r o o k" = "Esterbrook"
    ∧ despace_and_format_desc "N i b B o l d / F i n e" = "Nib Bold / Fine"
    ∧ kenroParse
        [[[some "Item Code", some "Description", none, some "Qty"],
          [some "EB123", some "E s t e r b r o o k", none, some "2", none,
           none, none, none, some "10.00", some "0", none, some "20.00"],
          [some "TOTALS"]]]
        true
      = [⟨.int 2, some 0, "EB123", "EB123", "Esterbrook",
          some ⟨1000, 2⟩, some ⟨2000, 2⟩⟩] :=
  ⟨hasSpacedRunCh_iff, by decide, by decide, by decide, by decide⟩

